import Mathlib

/-!
# Jogo das Cores: elimination rule, scoring and click handling

A shallow embedding of `JogoDeCores.cpp`.  The game state that the C++ program keeps in
file-level statics (`grid`, `attempts`, `score`, `gameOver`, `iSelected`) is an explicit
record that every operation receives and returns.

Conventions of the embedding:

* A finite `float` is the rational number it denotes.  Every `float` operation of
  `eliminarSimilares` and `resetGame` is the exact operation followed by rounding to the
  nearest binary32 value, ties to even (`f32`), and `sqrtf` is the correctly rounded square
  root (`fsqrt`); each operation is rounded on its own, without fused multiply-add and without
  excess precision.  A result that is not a finite number (overflow, or the root of a negative
  number) is `none`; every later comparison with it is false, as it is for an infinity on the
  left of `<=` or for a NaN.
* The cell positions and dimensions `j * 100 + 50`, `100`, `1` are small integers, which
  binary32 holds exactly, so they are written without rounding.  The `double` arithmetic of the
  click handler is exact rational arithmetic followed by the truncation of `static_cast<int>`.
* `int` is the 32-bit two's-complement integer: `attempts++`, `removedCount - penalty` and
  `score += ...` wrap around (`wrapInt`).  The C++ standard leaves signed overflow undefined;
  wrap-around is what the usual compilers produce.  In every state the program can reach
  `attempts` and `score` are at most the number of cells (`reachable_bounds`), so no
  wrap-around happens there.  `removedCount` starts at 1 and is incremented at most 48 times,
  so its increments are written without `wrapInt`.
* Indexing `grid[row][col]` outside the array has no defined behaviour; the operations
  that index with an unchecked `iSelected` return `none` there.
* `rand()` is an explicit stream of naturals; `glfwGetCursorPos` is a pair of arguments.
-/

namespace JogoDasCores

/-! ## Constants -/

abbrev WIDTH : Nat := 800
abbrev HEIGHT : Nat := 600
abbrev ROWS : Nat := 6
abbrev COLS : Nat := 8
abbrev QUAD_W : Nat := 100
abbrev QUAD_H : Nat := 100

def GLFW_MOUSE_BUTTON_LEFT : Int := 0
def GLFW_PRESS : Int := 1
def GLFW_KEY_ESCAPE : Int := 256
def GLFW_KEY_R : Int := 82

/-! ## Binary32 arithmetic -/

/-- Rounding of a rational to the nearest integer, ties to the even one. -/
def roundHalfEven (t : ℚ) : Int :=
  if t - ⌊t⌋ < 1 / 2 then ⌊t⌋
  else if 1 / 2 < t - ⌊t⌋ then ⌊t⌋ + 1
  else if ⌊t⌋ % 2 = 0 then ⌊t⌋ else ⌊t⌋ + 1

/-- The binary exponent of a positive magnitude, held at `-126` in the subnormal range. -/
def binade (a : ℚ) : Int := max (Int.log 2 a) (-126)

/-- The spacing of the binary32 values around a magnitude: 24 significant bits. -/
def ulp32 (a : ℚ) : ℚ := (2 : ℚ) ^ (binade a - 23)

/-- Rounding of a non-negative magnitude to the binary32 grid. -/
def roundMag (a : ℚ) : ℚ := (roundHalfEven (a / ulp32 a) : ℚ) * ulp32 a

/-- Rounding to the nearest binary32 value, ties to even, with unbounded exponent above. -/
def f32 (x : ℚ) : ℚ := if x < 0 then -roundMag (-x) else roundMag x

/-- The binary32 result of an operation whose exact result is `x`: `none` when the rounded
magnitude reaches `2 ^ 128`, where binary32 gives an infinity. -/
def toF32 (x : ℚ) : Option ℚ := if |f32 x| < 2 ^ 128 then some (f32 x) else none

/-- The binary exponent of the square root of a positive number. -/
def sqrtBinade (x : ℚ) : Int := max (Int.log 2 x / 2) (-126)

/-- The spacing of the binary32 values around the square root of a number. -/
def sqrtUlp (x : ℚ) : ℚ := (2 : ℚ) ^ (sqrtBinade x - 23)

/-- Rounding of the square root of `r` to the nearest integer, ties to even: the integer
square root of the integer part, then one comparison of `r` with the square of the
midpoint. -/
def roundSqrt (r : ℚ) : Int :=
  if r < ((Nat.sqrt ⌊r⌋₊ : ℚ) + 1 / 2) ^ 2 then (Nat.sqrt ⌊r⌋₊ : Int)
  else if ((Nat.sqrt ⌊r⌋₊ : ℚ) + 1 / 2) ^ 2 < r then (Nat.sqrt ⌊r⌋₊ : Int) + 1
  else if Nat.sqrt ⌊r⌋₊ % 2 = 0 then (Nat.sqrt ⌊r⌋₊ : Int) else (Nat.sqrt ⌊r⌋₊ : Int) + 1

/-- The correctly rounded binary32 square root of a non-negative number. -/
def sqrtMag (x : ℚ) : ℚ := (roundSqrt (x / (sqrtUlp x * sqrtUlp x)) : ℚ) * sqrtUlp x

/-- The function `sqrtf`: `none` (a NaN) on a negative argument. -/
def fsqrt (x : ℚ) : Option ℚ := if x < 0 then none else some (sqrtMag x)

/-- The constant `dMax = sqrt(3.0f)`. -/
def dMax : ℚ := sqrtMag 3

/-- The constant `COLOR_TOLERANCE = 0.2f` passed by the main loop. -/
def COLOR_TOLERANCE : ℚ := f32 (2 / 10)

/-! ## 32-bit `int` arithmetic -/

/-- The value a 32-bit two's-complement `int` holds after an operation whose exact result
is `x`. -/
def wrapInt (x : Int) : Int := (x + 2147483648) % 4294967296 - 2147483648

/-! ## Data model -/

/-- The type `glm::vec3`; the components are also read as `r`, `g`, `b`. -/
structure Vec3 where
  x : ℚ
  y : ℚ
  z : ℚ
deriving DecidableEq

@[reducible] def Vec3.r (v : Vec3) : ℚ := v.x
@[reducible] def Vec3.g (v : Vec3) : ℚ := v.y
@[reducible] def Vec3.b (v : Vec3) : ℚ := v.z

/-- The struct `Quad`. -/
structure Quad where
  position : Vec3
  dimensions : Vec3
  color : Vec3
  eliminated : Bool
deriving DecidableEq

/-- The array `Quad grid[ROWS][COLS]`. -/
abbrev Grid := Fin ROWS → Fin COLS → Quad

/-- The file-level statics that make up a session. -/
structure Game where
  grid : Grid
  attempts : Int
  score : Int
  gameOver : Bool
  iSelected : Int

/-- The assignment `grid[i][j].eliminated = true`. -/
def setEliminated (g : Grid) (i : Fin ROWS) (j : Fin COLS) : Grid :=
  fun a b => if a = i ∧ b = j then { g a b with eliminated := true } else g a b

/-- The assignment `grid[i][j] = q`. -/
def setQuad (g : Grid) (i : Fin ROWS) (j : Fin COLS) (q : Quad) : Grid :=
  fun a b => if a = i ∧ b = j then q else g a b

/-! ## eliminarSimilares -/

/-- The value `normalizedDist` of `eliminarSimilares`: the three differences, their squares,
the two additions from left to right, `sqrtf` and the division by `dMax`, each rounded to
binary32. -/
def normalizedDist (c target : Vec3) : Option ℚ :=
  (toF32 (c.r - target.r)).bind fun dr =>
  (toF32 (c.g - target.g)).bind fun dg =>
  (toF32 (c.b - target.b)).bind fun db =>
  (toF32 (dr * dr)).bind fun rr =>
  (toF32 (dg * dg)).bind fun gg =>
  (toF32 (db * db)).bind fun bb =>
  (toF32 (rr + gg)).bind fun s1 =>
  (toF32 (s1 + bb)).bind fun s2 =>
  (fsqrt s2).bind fun dist =>
  toF32 (dist / dMax)

/-- The test `normalizedDist <= toleranciaNormalized`. -/
def normalizedDistLe (c target : Vec3) (tol : ℚ) : Bool :=
  match normalizedDist c target with
  | some nd => decide (nd ≤ tol)
  | none => false

/-- Body of the inner loop of `eliminarSimilares` at cell `(i, j)`; the state is the grid
and `removedCount`. -/
def sweepCell (target : Vec3) (tol : ℚ) (i : Fin ROWS) (j : Fin COLS)
    (st : Grid × Int) : Grid × Int :=
  if !(st.1 i j).eliminated then
    let c := (st.1 i j).color
    if normalizedDistLe c target tol then
      (setEliminated st.1 i j, st.2 + 1)
    else st
  else st

/-- The two nested `for` loops of `eliminarSimilares`. -/
def sweep (target : Vec3) (tol : ℚ) (st : Grid × Int) : Grid × Int :=
  (List.finRange ROWS).foldl
    (fun st i => (List.finRange COLS).foldl (fun st j => sweepCell target tol i j st) st) st

/-- The function `eliminarSimilares`: the new state and the returned count; `none` when
`iSelected` indexes outside the grid. -/
def eliminarSimilares (s : Game) (toleranciaNormalized : ℚ) : Option (Game × Int) :=
  if s.iSelected < 0 then some (s, 0)
  else
    let row := s.iSelected.toNat / COLS
    let col := s.iSelected.toNat % COLS
    if h : row < ROWS then
      let r : Fin ROWS := ⟨row, h⟩
      let c : Fin COLS := ⟨col, Nat.mod_lt _ (by decide)⟩
      let g0 := setEliminated s.grid r c
      let target := (g0 r c).color
      let res := sweep target toleranciaNormalized (g0, 1)
      some ({ s with grid := res.1, iSelected := -1 }, res.2)
    else none

/-! ## anyActiveCell -/

/-- The function `anyActiveCell`: the early `return true` is the short-circuit of `any`. -/
def anyActiveCell (g : Grid) : Bool :=
  (List.finRange ROWS).any fun i => (List.finRange COLS).any fun j => !(g i j).eliminated

/-! ## The selection-processing step of `main` -/

/-- The block `if (removedCount > 0) { ... }` of the main loop. -/
def updateScore (s : Game) (removedCount : Int) : Game :=
  if removedCount > 0 then
    let attempts := wrapInt (s.attempts + 1)
    let penalty := attempts
    let score := wrapInt (s.score + wrapInt (removedCount - penalty))
    { s with attempts := attempts, score := if score < 0 then 0 else score }
  else s

/-- The block `if (iSelected >= 0 && !gameOver) { ... }` of the main loop, with the
tolerance as a parameter (the program passes `COLOR_TOLERANCE`). -/
def processSelection (s : Game) (tol : ℚ) : Option Game :=
  if s.iSelected ≥ 0 ∧ s.gameOver = false then
    match eliminarSimilares s tol with
    | none => none
    | some (s1, removedCount) =>
      let s2 := updateScore s1 removedCount
      let s3 := if !anyActiveCell s2.grid then { s2 with gameOver := true } else s2
      some { s3 with iSelected := -1 }
  else some s

/-! ## mouse_button_callback -/

/-- The conversion `static_cast<int>` of a `double`: truncation toward zero. -/
def truncToInt (x : ℚ) : Int := if 0 ≤ x then ⌊x⌋ else ⌈x⌉

/-- The column computed from the cursor: `static_cast<int>((xpos - QUAD_W / 2) / QUAD_W)`. -/
def clickCol (xpos : ℚ) : Int := truncToInt ((xpos - ((QUAD_W / 2 : Nat) : ℚ)) / (QUAD_W : ℚ))

/-- The row computed from the cursor: `static_cast<int>((ypos - QUAD_H / 2) / QUAD_H)`. -/
def clickRow (ypos : ℚ) : Int := truncToInt ((ypos - ((QUAD_H / 2 : Nat) : ℚ)) / (QUAD_H : ℚ))

/-- The bounds check and the liveness check of the click handler, on the computed pair. -/
def selectCell (s : Game) (row col : Int) : Game :=
  if h : col ≥ 0 ∧ col < (COLS : Int) ∧ row ≥ 0 ∧ row < (ROWS : Int) then
    if !(s.grid ⟨row.toNat, by omega⟩ ⟨col.toNat, by omega⟩).eliminated then
      { s with iSelected := row * (COLS : Int) + col }
    else s
  else s

/-- The function `mouse_button_callback`; `xpos`, `ypos` are what `glfwGetCursorPos` gives. -/
def mouse_button_callback (s : Game) (button action : Int) (xpos ypos : ℚ) : Game :=
  if button = GLFW_MOUSE_BUTTON_LEFT ∧ action = GLFW_PRESS ∧ s.gameOver = false then
    let col := clickCol xpos
    let row := clickRow ypos
    selectCell s row col
  else s

/-! ## resetGame -/

/-- Body of the inner loop of `resetGame` at cell `(i, j)`; the state is the grid and the
number of `rand()` calls made so far. -/
def resetCell (rand : Nat → Nat) (i : Fin ROWS) (j : Fin COLS) (st : Grid × Nat) : Grid × Nat :=
  let r : ℚ := f32 (((rand st.2 % 256 : Nat) : ℚ) / 255)
  let g : ℚ := f32 (((rand (st.2 + 1) % 256 : Nat) : ℚ) / 255)
  let b : ℚ := f32 (((rand (st.2 + 2) % 256 : Nat) : ℚ) / 255)
  let q : Quad :=
    { position := ⟨(j : ℚ) * QUAD_W + (QUAD_W : ℚ) / 2, (i : ℚ) * QUAD_H + (QUAD_H : ℚ) / 2, 0⟩
      dimensions := ⟨QUAD_W, QUAD_H, 1⟩
      color := ⟨r, g, b⟩
      eliminated := false }
  (setQuad st.1 i j q, st.2 + 3)

/-- The function `resetGame`; `rand n` is the value of the `n`-th call of `rand()`. -/
def resetGame (s : Game) (rand : Nat → Nat) : Game :=
  { attempts := 0
    score := 0
    gameOver := false
    iSelected := -1
    grid := ((List.finRange ROWS).foldl
      (fun st i => (List.finRange COLS).foldl (fun st j => resetCell rand i j st) st)
      (s.grid, 0)).1 }

/-- The function `key_callback` on the game state (closing the window is not part of it). -/
def key_callback (s : Game) (key action : Int) (rand : Nat → Nat) : Game :=
  if key = GLFW_KEY_ESCAPE ∧ action = GLFW_PRESS then s
  else if key = GLFW_KEY_R ∧ action = GLFW_PRESS then resetGame s rand
  else s

/-! ## Drawing -/

/-- The corner coordinates of the unit quad of `createQuad`, as `(x, y)` pairs. -/
def createQuad : List (ℚ × ℚ) :=
  [(-1/2, 1/2), (-1/2, -1/2), (1/2, 1/2), (1/2, -1/2)]

/-- The model matrix of the draw loop, `translate(position) * scale(dimensions)`, applied
to a vertex; the orthographic projection maps the result to window pixels one to one. -/
def drawnVertex (q : Quad) (v : ℚ × ℚ) : ℚ × ℚ :=
  (q.position.x + q.dimensions.x * v.1, q.position.y + q.dimensions.y * v.2)

/-! ## Reachable states -/

/-- The states the program goes through: the initial `resetGame`, then clicks, key presses
and selection-processing steps in any order. -/
inductive Reachable (tol : ℚ) : Game → Prop
  | init (s0 : Game) (rand : Nat → Nat) : Reachable tol (resetGame s0 rand)
  | click (s : Game) (button action : Int) (xpos ypos : ℚ) :
      Reachable tol s → Reachable tol (mouse_button_callback s button action xpos ypos)
  | key (s : Game) (k action : Int) (rand : Nat → Nat) :
      Reachable tol s → Reachable tol (key_callback s k action rand)
  | step (s s' : Game) :
      Reachable tol s → processSelection s tol = some s' → Reachable tol s'

/-! ## Specification-side notions -/

/-- The sum of the squared channel differences of two colours, computed exactly. -/
def distSq (c target : Vec3) : ℚ :=
  (c.r - target.r) * (c.r - target.r) +
  (c.g - target.g) * (c.g - target.g) +
  (c.b - target.b) * (c.b - target.b)

/-- The similarity test as the specification words it: the Euclidean distance of the two
colours, divided by the square root of three, is at most the tolerance, over the reals. -/
def withinToleranceReal (c target : Vec3) (tol : ℚ) : Prop :=
  Real.sqrt (((c.r : ℝ) - target.r) ^ 2 + ((c.g : ℝ) - target.g) ^ 2 +
    ((c.b : ℝ) - target.b) ^ 2) / Real.sqrt 3 ≤ (tol : ℝ)

/-- All cells in the row-major order of the loops. -/
def allCells : List (Fin ROWS × Fin COLS) :=
  (List.finRange ROWS).flatMap fun i => (List.finRange COLS).map fun j => (i, j)

/-- The condition under which the sweep eliminates a cell of grid `g`. -/
def matchCell (g : Grid) (target : Vec3) (tol : ℚ) (p : Fin ROWS × Fin COLS) : Bool :=
  !(g p.1 p.2).eliminated && normalizedDistLe (g p.1 p.2).color target tol

/-- Number of live cells of a grid. -/
def liveCount (g : Grid) : Nat :=
  (Finset.univ.filter fun p : Fin ROWS × Fin COLS => (g p.1 p.2).eliminated = false).card

/-- What `resetGame` leaves in the cell `(i, j)`: the centre of the cell as position, the
cell size as dimensions, the live flag, and as channels the binary32 quotients by 255 of
three consecutive values of `rand() % 256`. -/
def IsFreshQuad (rand : Nat → Nat) (i : Fin ROWS) (j : Fin COLS) (q : Quad) : Prop :=
  q.position = ⟨(j : ℚ) * 100 + 50, (i : ℚ) * 100 + 50, 0⟩ ∧
  q.dimensions = ⟨100, 100, 1⟩ ∧
  q.eliminated = false ∧
  ∃ n : Nat, q.color =
    ⟨f32 (((rand n % 256 : Nat) : ℚ) / 255), f32 (((rand (n + 1) % 256 : Nat) : ℚ) / 255),
      f32 (((rand (n + 2) % 256 : Nat) : ℚ) / 255)⟩

/-- The range of a 32-bit `int`. -/
def InIntRange (x : Int) : Prop := -2147483648 ≤ x ∧ x < 2147483648

/-- The score the main loop stores after a selection that removed `removedCount` cells. -/
def scoreAfter (score attempts removedCount : Int) : Int :=
  if wrapInt (score + wrapInt (removedCount - wrapInt (attempts + 1))) < 0 then 0
  else wrapInt (score + wrapInt (removedCount - wrapInt (attempts + 1)))

/-- The invariant of the reachable states. -/
def Inv (s : Game) : Prop :=
  (s.gameOver = true ↔ anyActiveCell s.grid = false) ∧
  0 ≤ s.score ∧
  (s.iSelected = -1 ∨
    ∃ (r : Fin ROWS) (c : Fin COLS), s.iSelected = (r : Int) * (COLS : Int) + (c : Int) ∧
      (s.grid r c).eliminated = false ∧ s.gameOver = false)

/-- The grid that `eliminarSimilares` leaves when the selected cell is `(r, c)`. -/
def sweptGrid (g : Grid) (r : Fin ROWS) (c : Fin COLS) (tol : ℚ) : Grid :=
  fun i j =>
    if (i, j) = (r, c) ∨ normalizedDistLe (g i j).color (g r c).color tol = true
    then { g i j with eliminated := true } else g i j

/-- The number of live cells other than `(r, c)` whose colour passes the test against the
colour of `(r, c)`. -/
def matchCount (g : Grid) (r : Fin ROWS) (c : Fin COLS) (tol : ℚ) : Nat :=
  (Finset.univ.filter fun p : Fin ROWS × Fin COLS =>
    p ≠ (r, c) ∧ (g p.1 p.2).eliminated = false ∧
      normalizedDistLe (g p.1 p.2).color (g r c).color tol = true).card

/-- The three-cell scenario of the specification placed on the 6×8 grid: the cells `(0, 0)`,
`(0, 1)`, `(0, 2)` are live with colours `(0,0,0)`, `(1,1,1)`, `(1,1,1)`; every other cell is
already eliminated. -/
def scenarioGrid : Grid := fun i j =>
  { position := ⟨(j : ℚ) * 100 + 50, (i : ℚ) * 100 + 50, 0⟩
    dimensions := ⟨100, 100, 1⟩
    color := if i = 0 ∧ j = 0 then ⟨0, 0, 0⟩ else ⟨1, 1, 1⟩
    eliminated := !(decide (i = 0 ∧ j.val < 3)) }

/-- The scenario grid in a session with `attempts = 0`, `score = 0`, `gameOver = false` and
the given selection. -/
def scenario (iSelected : Int) : Game :=
  { grid := scenarioGrid, attempts := 0, score := 0, gameOver := false, iSelected := iSelected }

/-- A board as `resetGame` can leave it: every cell live, the cell `(0, 1)` with the channels
`float(3) / 255.0f`, `float(15) / 255.0f`, `float(87) / 255.0f`, every other cell black. -/
def boundaryGrid : Grid := fun i j =>
  { position := ⟨(j : ℚ) * 100 + 50, (i : ℚ) * 100 + 50, 0⟩
    dimensions := ⟨100, 100, 1⟩
    color := if i = 0 ∧ j = 1 then ⟨f32 (3 / 255), f32 (15 / 255), f32 (87 / 255)⟩
      else ⟨0, 0, 0⟩
    eliminated := false }

/-- The boundary board with the black cell `(0, 0)` selected. -/
def boundaryGame : Game :=
  { grid := boundaryGrid, attempts := 0, score := 0, gameOver := false, iSelected := 0 }

/-- The scenario session with `attempts` at the largest `int`, the cell `(0, 0)` selected. -/
def overflowGame : Game :=
  { grid := scenarioGrid, attempts := 2147483647, score := 0, gameOver := false,
    iSelected := 0 }

/-! ## Binary32 rounding: order and values -/

theorem floor_le_roundHalfEven (t : ℚ) : ⌊t⌋ ≤ roundHalfEven t := by
  unfold roundHalfEven
  split_ifs <;> omega

theorem roundHalfEven_le_floor_add_one (t : ℚ) : roundHalfEven t ≤ ⌊t⌋ + 1 := by
  unfold roundHalfEven
  split_ifs <;> omega

theorem roundHalfEven_intCast (n : Int) : roundHalfEven (n : ℚ) = n := by
  unfold roundHalfEven
  simp

theorem roundHalfEven_mono {t u : ℚ} (h : t ≤ u) : roundHalfEven t ≤ roundHalfEven u := by
  rcases (Int.floor_mono h).lt_or_eq with hlt | heq
  · calc roundHalfEven t ≤ ⌊t⌋ + 1 := roundHalfEven_le_floor_add_one t
      _ ≤ ⌊u⌋ := hlt
      _ ≤ roundHalfEven u := floor_le_roundHalfEven u
  · unfold roundHalfEven
    rw [heq]
    have h' : t - ⌊u⌋ ≤ u - ⌊u⌋ := by linarith
    split_ifs <;> first | omega | (exfalso; linarith)

theorem ulp32_pos (a : ℚ) : 0 < ulp32 a := zpow_pos (by norm_num) _

theorem roundMag_nonneg {a : ℚ} (ha : 0 ≤ a) : 0 ≤ roundMag a := by
  unfold roundMag
  have h1 : (0 : ℚ) ≤ a / ulp32 a := div_nonneg ha (ulp32_pos a).le
  have h2 : (0 : Int) ≤ roundHalfEven (a / ulp32 a) :=
    (Int.floor_nonneg.mpr h1).trans (floor_le_roundHalfEven _)
  exact mul_nonneg (by exact_mod_cast h2) (ulp32_pos a).le

theorem roundMag_zero : roundMag 0 = 0 := by
  unfold roundMag
  rw [zero_div]
  have : roundHalfEven 0 = 0 := by simpa using roundHalfEven_intCast 0
  rw [this]; simp

theorem two_zpow_sub (e k : Int) : (2 : ℚ) ^ e = (2 : ℚ) ^ k * (2 : ℚ) ^ (e - k) := by
  rw [← zpow_add₀ (by norm_num : (2 : ℚ) ≠ 0)]
  congr 1; ring

theorem roundMag_le_of_lt {a : ℚ} {e : Int} (ha : a < (2 : ℚ) ^ (e + 1)) (he : binade a = e) :
    roundMag a ≤ (2 : ℚ) ^ (e + 1) := by
  unfold roundMag ulp32
  rw [he]
  have hq : (0 : ℚ) < (2 : ℚ) ^ (e - 23) := zpow_pos (by norm_num) _
  have hsplit : (2 : ℚ) ^ (e + 1) = ((2 ^ 24 : Int) : ℚ) * (2 : ℚ) ^ (e - 23) := by
    rw [two_zpow_sub (e + 1) 24]
    norm_num
    ring
  rw [hsplit]
  apply mul_le_mul_of_nonneg_right _ hq.le
  have hle : a / (2 : ℚ) ^ (e - 23) ≤ ((2 ^ 24 : Int) : ℚ) := by
    rw [div_le_iff₀ hq, ← hsplit]; exact ha.le
  have := roundHalfEven_mono hle
  rw [roundHalfEven_intCast] at this
  exact_mod_cast this

theorem le_roundMag_of_le {a : ℚ} {e : Int} (ha : (2 : ℚ) ^ e ≤ a) (he : binade a = e) :
    (2 : ℚ) ^ e ≤ roundMag a := by
  unfold roundMag ulp32
  rw [he]
  have hq : (0 : ℚ) < (2 : ℚ) ^ (e - 23) := zpow_pos (by norm_num) _
  have hsplit : (2 : ℚ) ^ e = ((2 ^ 23 : Int) : ℚ) * (2 : ℚ) ^ (e - 23) := by
    rw [two_zpow_sub e 23]
    norm_num
  rw [hsplit]
  apply mul_le_mul_of_nonneg_right _ hq.le
  have hle : ((2 ^ 23 : Int) : ℚ) ≤ a / (2 : ℚ) ^ (e - 23) := by
    rw [le_div_iff₀ hq, ← hsplit]; exact ha
  have := roundHalfEven_mono hle
  rw [roundHalfEven_intCast] at this
  exact_mod_cast this

theorem lt_two_zpow_binade (a : ℚ) : a < (2 : ℚ) ^ (binade a + 1) := by
  have h1 : a < ((2 : ℕ) : ℚ) ^ (Int.log 2 a + 1) := Int.lt_zpow_succ_log_self (by norm_num) a
  have h2 : ((2 : ℕ) : ℚ) ^ (Int.log 2 a + 1) ≤ (2 : ℚ) ^ (binade a + 1) := by
    push_cast
    apply zpow_le_zpow_right₀ (by norm_num)
    unfold binade
    have := le_max_left (Int.log 2 a) (-126)
    omega
  exact h1.trans_le h2

theorem binade_mono {a b : ℚ} (ha : 0 < a) (h : a ≤ b) : binade a ≤ binade b := by
  unfold binade
  exact max_le_max (Int.log_mono_right ha h) le_rfl

theorem roundMag_mono {a b : ℚ} (ha : 0 ≤ a) (h : a ≤ b) : roundMag a ≤ roundMag b := by
  rcases ha.eq_or_lt with h0 | hpos
  · rw [← h0, roundMag_zero]; exact roundMag_nonneg (ha.trans h)
  · rcases (binade_mono hpos h).lt_or_eq with hlt | heq
    · have hb : 0 < b := hpos.trans_le h
      have hbl : binade b = Int.log 2 b := by
        unfold binade at hlt ⊢
        have := le_max_right (Int.log 2 a) (-126)
        rcases max_cases (Int.log 2 b) (-126) with ⟨h1, _⟩ | ⟨h1, _⟩
        · exact h1
        · omega
      have h1 := roundMag_le_of_lt (lt_two_zpow_binade a) rfl
      have h2 : (2 : ℚ) ^ (binade b) ≤ b := by
        rw [hbl]
        have := Int.zpow_log_le_self (b := 2) (by norm_num) hb
        exact_mod_cast this
      have h3 := le_roundMag_of_le h2 rfl
      have h4 : (2 : ℚ) ^ (binade a + 1) ≤ (2 : ℚ) ^ (binade b) :=
        zpow_le_zpow_right₀ (by norm_num) (by omega)
      exact h1.trans (h4.trans h3)
    · unfold roundMag ulp32
      rw [heq]
      have hq : (0 : ℚ) < (2 : ℚ) ^ (binade b - 23) := zpow_pos (by norm_num) _
      apply mul_le_mul_of_nonneg_right _ hq.le
      have := roundHalfEven_mono (div_le_div_of_nonneg_right h hq.le)
      exact_mod_cast this

theorem f32_mono {x y : ℚ} (h : x ≤ y) : f32 x ≤ f32 y := by
  unfold f32
  split_ifs with hx hy hy
  · exact neg_le_neg (roundMag_mono (by linarith) (by linarith))
  · exact (neg_nonpos.mpr (roundMag_nonneg (by linarith))).trans (roundMag_nonneg (by linarith))
  · exfalso; linarith
  · exact roundMag_mono (by linarith) h

/-! ### Square root -/

theorem sqrtUlp_pos (x : ℚ) : 0 < sqrtUlp x := zpow_pos (by norm_num) _

theorem natSqrt_le_roundSqrt (r : ℚ) : (Nat.sqrt ⌊r⌋₊ : Int) ≤ roundSqrt r := by
  unfold roundSqrt
  split_ifs <;> omega

theorem roundSqrt_le_natSqrt_add_one (r : ℚ) : roundSqrt r ≤ (Nat.sqrt ⌊r⌋₊ : Int) + 1 := by
  unfold roundSqrt
  split_ifs <;> omega

theorem roundSqrt_mono {r u : ℚ} (h : r ≤ u) : roundSqrt r ≤ roundSqrt u := by
  rcases (Nat.sqrt_le_sqrt (Nat.floor_mono h)).lt_or_eq with hlt | heq
  · calc roundSqrt r ≤ (Nat.sqrt ⌊r⌋₊ : Int) + 1 := roundSqrt_le_natSqrt_add_one r
      _ ≤ (Nat.sqrt ⌊u⌋₊ : Int) := by omega
      _ ≤ roundSqrt u := natSqrt_le_roundSqrt u
  · unfold roundSqrt
    rw [heq]
    split_ifs <;> first | omega | (exfalso; linarith)

theorem roundSqrt_zero : roundSqrt 0 = 0 := by
  unfold roundSqrt
  norm_num

theorem roundSqrt_le_of_lt {r : ℚ} (h : r < 2 ^ 48) : roundSqrt r ≤ 2 ^ 24 := by
  have h1 : ⌊r⌋₊ < 2 ^ 48 := by
    rcases le_or_lt r 0 with h0 | h0
    · rw [Nat.floor_of_nonpos h0]; norm_num
    · rw [Nat.floor_lt h0.le]; exact_mod_cast h
  have h2 : Nat.sqrt ⌊r⌋₊ < 2 ^ 24 := by
    rw [Nat.sqrt_lt']; calc ⌊r⌋₊ < 2 ^ 48 := h1
      _ = (2 ^ 24) ^ 2 := by norm_num
  have := roundSqrt_le_natSqrt_add_one r
  omega

theorem le_roundSqrt_of_le {r : ℚ} (h : 2 ^ 46 ≤ r) : 2 ^ 23 ≤ roundSqrt r := by
  have h1 : 2 ^ 46 ≤ ⌊r⌋₊ := by
    apply Nat.le_floor; exact_mod_cast h
  have h2 : 2 ^ 23 ≤ Nat.sqrt ⌊r⌋₊ := by
    rw [Nat.le_sqrt']; calc (2 ^ 23) ^ 2 = 2 ^ 46 := by norm_num
      _ ≤ ⌊r⌋₊ := h1
  have := natSqrt_le_roundSqrt r
  omega

theorem sqrtMag_nonneg (x : ℚ) : 0 ≤ sqrtMag x := by
  unfold sqrtMag
  have h : (0 : Int) ≤ roundSqrt (x / (sqrtUlp x * sqrtUlp x)) :=
    (Int.natCast_nonneg _).trans (natSqrt_le_roundSqrt _)
  exact mul_nonneg (by exact_mod_cast h) (sqrtUlp_pos x).le

theorem sqrtMag_zero : sqrtMag 0 = 0 := by
  unfold sqrtMag
  rw [zero_div, roundSqrt_zero]; simp

theorem sqrtBinade_mono {x y : ℚ} (hx : 0 < x) (h : x ≤ y) : sqrtBinade x ≤ sqrtBinade y := by
  unfold sqrtBinade
  exact max_le_max (Int.ediv_le_ediv (by norm_num) (Int.log_mono_right hx h)) le_rfl

theorem sqrtUlp_sq (e : Int) :
    (2 : ℚ) ^ (e - 23) * (2 : ℚ) ^ (e - 23) = (2 : ℚ) ^ (2 * e - 46) := by
  rw [← zpow_add₀ (by norm_num : (2 : ℚ) ≠ 0)]
  congr 1; ring

theorem sqrtMag_le_of_lt {x : ℚ} {e : Int} (hx : x < (2 : ℚ) ^ (2 * e + 2))
    (he : sqrtBinade x = e) : sqrtMag x ≤ (2 : ℚ) ^ (e + 1) := by
  unfold sqrtMag sqrtUlp
  rw [he]
  have hq : (0 : ℚ) < (2 : ℚ) ^ (e - 23) := zpow_pos (by norm_num) _
  have hqq : (0 : ℚ) < (2 : ℚ) ^ (2 * e - 46) := zpow_pos (by norm_num) _
  have hsplit : (2 : ℚ) ^ (e + 1) = ((2 ^ 24 : Int) : ℚ) * (2 : ℚ) ^ (e - 23) := by
    rw [two_zpow_sub (e + 1) 24]
    norm_num
    ring
  rw [hsplit, sqrtUlp_sq]
  apply mul_le_mul_of_nonneg_right _ hq.le
  have hr : x / (2 : ℚ) ^ (2 * e - 46) < 2 ^ 48 := by
    rw [div_lt_iff₀ hqq]
    have : (2 : ℚ) ^ (2 * e + 2) = 2 ^ 48 * (2 : ℚ) ^ (2 * e - 46) := by
      rw [two_zpow_sub (2 * e + 2) 48]
      norm_num
      ring
    rw [← this]; exact hx
  have := roundSqrt_le_of_lt hr
  exact_mod_cast this

theorem le_sqrtMag_of_le {x : ℚ} {e : Int} (hx : (2 : ℚ) ^ (2 * e) ≤ x)
    (he : sqrtBinade x = e) : (2 : ℚ) ^ e ≤ sqrtMag x := by
  unfold sqrtMag sqrtUlp
  rw [he]
  have hq : (0 : ℚ) < (2 : ℚ) ^ (e - 23) := zpow_pos (by norm_num) _
  have hqq : (0 : ℚ) < (2 : ℚ) ^ (2 * e - 46) := zpow_pos (by norm_num) _
  have hsplit : (2 : ℚ) ^ e = ((2 ^ 23 : Int) : ℚ) * (2 : ℚ) ^ (e - 23) := by
    rw [two_zpow_sub e 23]
    norm_num
  rw [hsplit, sqrtUlp_sq]
  apply mul_le_mul_of_nonneg_right _ hq.le
  have hr : 2 ^ 46 ≤ x / (2 : ℚ) ^ (2 * e - 46) := by
    rw [le_div_iff₀ hqq]
    have : (2 : ℚ) ^ (2 * e) = 2 ^ 46 * (2 : ℚ) ^ (2 * e - 46) := by
      rw [two_zpow_sub (2 * e) 46]
      norm_num
    rw [← this]; exact hx
  have := le_roundSqrt_of_le hr
  exact_mod_cast this

theorem lt_two_zpow_sqrtBinade (x : ℚ) : x < (2 : ℚ) ^ (2 * sqrtBinade x + 2) := by
  have h1 : x < ((2 : ℕ) : ℚ) ^ (Int.log 2 x + 1) := Int.lt_zpow_succ_log_self (by norm_num) x
  have h2 : ((2 : ℕ) : ℚ) ^ (Int.log 2 x + 1) ≤ (2 : ℚ) ^ (2 * sqrtBinade x + 2) := by
    push_cast
    apply zpow_le_zpow_right₀ (by norm_num)
    unfold sqrtBinade
    have := le_max_left (Int.log 2 x / 2) (-126)
    omega
  exact h1.trans_le h2

theorem sqrtMag_mono {x y : ℚ} (hx : 0 ≤ x) (h : x ≤ y) : sqrtMag x ≤ sqrtMag y := by
  rcases hx.eq_or_lt with h0 | hpos
  · rw [← h0, sqrtMag_zero]; exact sqrtMag_nonneg y
  · rcases (sqrtBinade_mono hpos h).lt_or_eq with hlt | heq
    · have hy : 0 < y := hpos.trans_le h
      have hyl : sqrtBinade y = Int.log 2 y / 2 := by
        unfold sqrtBinade at hlt ⊢
        have := le_max_right (Int.log 2 x / 2) (-126)
        rcases max_cases (Int.log 2 y / 2) (-126) with ⟨h1, _⟩ | ⟨h1, _⟩
        · exact h1
        · omega
      have h1 := sqrtMag_le_of_lt (lt_two_zpow_sqrtBinade x) rfl
      have h2 : (2 : ℚ) ^ (2 * sqrtBinade y) ≤ y := by
        have hl : (2 : ℚ) ^ (Int.log 2 y) ≤ y := by
          have := Int.zpow_log_le_self (b := 2) (by norm_num) hy
          exact_mod_cast this
        refine le_trans (zpow_le_zpow_right₀ (by norm_num) ?_) hl
        rw [hyl]; omega
      have h3 := le_sqrtMag_of_le h2 rfl
      have h4 : (2 : ℚ) ^ (sqrtBinade x + 1) ≤ (2 : ℚ) ^ (sqrtBinade y) :=
        zpow_le_zpow_right₀ (by norm_num) (by omega)
      exact h1.trans (h4.trans h3)
    · unfold sqrtMag sqrtUlp
      rw [heq]
      have hq : (0 : ℚ) < (2 : ℚ) ^ (sqrtBinade y - 23) := zpow_pos (by norm_num) _
      apply mul_le_mul_of_nonneg_right _ hq.le
      have := roundSqrt_mono (div_le_div_of_nonneg_right h (mul_pos hq hq).le)
      exact_mod_cast this

/-! ### Evaluation at concrete values -/

theorem roundHalfEven_eq_of_close {t : ℚ} {n : Int} (h : |t - n| < 1 / 2) :
    roundHalfEven t = n := by
  rw [abs_lt] at h
  unfold roundHalfEven
  rcases le_or_lt (n : ℚ) t with hle | hlt
  · have hf : ⌊t⌋ = n := by
      rw [Int.floor_eq_iff]; constructor <;> linarith
    rw [hf, if_pos (by linarith)]
  · have hf : ⌊t⌋ = n - 1 := by
      rw [Int.floor_eq_iff]; push_cast; constructor <;> linarith
    rw [hf]
    push_cast
    rw [if_neg (by linarith), if_pos (by linarith)]
    ring

theorem log_eq_of_bounds {x : ℚ} {e : Int} (h1 : (2 : ℚ) ^ e ≤ x) (h2 : x < (2 : ℚ) ^ (e + 1)) :
    Int.log 2 x = e := by
  have hx : 0 < x := lt_of_lt_of_le (zpow_pos (by norm_num) _) h1
  have h1' : ((2 : ℕ) : ℚ) ^ e ≤ x := by exact_mod_cast h1
  have h2' : x < ((2 : ℕ) : ℚ) ^ (e + 1) := by exact_mod_cast h2
  have a := (Int.zpow_le_iff_le_log (by norm_num) hx).mp h1'
  have b := (Int.lt_zpow_iff_log_lt (by norm_num) hx).mp h2'
  omega

theorem roundMag_eq {x : ℚ} (e n : Int) (h1 : (2 : ℚ) ^ e ≤ x) (h2 : x < (2 : ℚ) ^ (e + 1))
    (he : -126 ≤ e) (hn : |x / (2 : ℚ) ^ (e - 23) - n| < 1 / 2) :
    roundMag x = (n : ℚ) * (2 : ℚ) ^ (e - 23) := by
  have hb : binade x = e := by
    unfold binade
    rw [log_eq_of_bounds h1 h2]
    exact max_eq_left he
  unfold roundMag ulp32
  rw [hb, roundHalfEven_eq_of_close hn]

theorem f32_eq {x : ℚ} (e n : Int) (h1 : (2 : ℚ) ^ e ≤ x) (h2 : x < (2 : ℚ) ^ (e + 1))
    (he : -126 ≤ e) (hn : |x / (2 : ℚ) ^ (e - 23) - n| < 1 / 2) :
    f32 x = (n : ℚ) * (2 : ℚ) ^ (e - 23) := by
  have hx : 0 < x := lt_of_lt_of_le (zpow_pos (by norm_num) _) h1
  unfold f32
  rw [if_neg (by linarith)]
  exact roundMag_eq e n h1 h2 he hn

theorem f32_zero : f32 0 = 0 := by
  unfold f32
  rw [if_neg (by norm_num)]
  exact roundMag_zero

theorem f32_neg_of_pos {x : ℚ} (hx : 0 < x) : f32 (-x) = -f32 x := by
  unfold f32
  rw [if_pos (by linarith), if_neg (by linarith), neg_neg]

theorem f32_one : f32 1 = 1 := by
  rw [f32_eq 0 8388608 (by norm_num) (by norm_num) (by norm_num) (by norm_num)]
  norm_num

theorem f32_two : f32 2 = 2 := by
  rw [f32_eq 1 8388608 (by norm_num) (by norm_num) (by norm_num) (by norm_num)]
  norm_num

theorem f32_three : f32 3 = 3 := by
  rw [f32_eq 1 12582912 (by norm_num) (by norm_num) (by norm_num) (by norm_num)]
  norm_num

theorem f32_neg_one : f32 (-1) = -1 := by
  rw [f32_neg_of_pos (by norm_num), f32_one]

theorem roundSqrt_eq_of_between {r : ℚ} (n : Nat) (hn : 0 < n)
    (h1 : ((n : ℚ) - 1 / 2) ^ 2 < r) (h2 : r < ((n : ℚ) + 1 / 2) ^ 2) :
    roundSqrt r = (n : Int) := by
  have hn1 : (1 : ℚ) ≤ n := by exact_mod_cast hn
  have hr : 0 < r := lt_of_le_of_lt (sq_nonneg _) h1
  have hm1 : ((Nat.sqrt ⌊r⌋₊ : ℕ) : ℚ) ^ 2 ≤ r := by
    have := Nat.sqrt_le' ⌊r⌋₊
    calc ((Nat.sqrt ⌊r⌋₊ : ℕ) : ℚ) ^ 2 = ((Nat.sqrt ⌊r⌋₊ ^ 2 : ℕ) : ℚ) := by push_cast; ring
      _ ≤ (⌊r⌋₊ : ℚ) := by exact_mod_cast this
      _ ≤ r := Nat.floor_le hr.le
  have hm2 : r < (((Nat.sqrt ⌊r⌋₊ : ℕ) : ℚ) + 1) ^ 2 := by
    have := Nat.lt_succ_sqrt' ⌊r⌋₊
    have h3 : (⌊r⌋₊ : ℚ) + 1 ≤ (((Nat.sqrt ⌊r⌋₊).succ ^ 2 : ℕ) : ℚ) := by exact_mod_cast this
    calc r < (⌊r⌋₊ : ℚ) + 1 := Nat.lt_floor_add_one r
      _ ≤ (((Nat.sqrt ⌊r⌋₊).succ ^ 2 : ℕ) : ℚ) := h3
      _ = (((Nat.sqrt ⌊r⌋₊ : ℕ) : ℚ) + 1) ^ 2 := by push_cast; ring
  unfold roundSqrt
  generalize Nat.sqrt ⌊r⌋₊ = m at hm1 hm2 ⊢
  have hm0 : (0 : ℚ) ≤ m := Nat.cast_nonneg m
  have hle : m ≤ n := by
    by_contra hc
    have : (n : ℚ) + 1 ≤ m := by exact_mod_cast (not_le.mp hc)
    nlinarith
  have hge : n ≤ m + 1 := by
    by_contra hc
    have : (m : ℚ) + 2 ≤ n := by exact_mod_cast (not_le.mp hc)
    nlinarith
  rcases Nat.lt_or_ge m n with hlt | hge'
  · have hmn : n = m + 1 := by omega
    subst hmn
    push_cast at h1 h2 ⊢
    have e1 : (m : ℚ) + 1 - 1 / 2 = m + 1 / 2 := by ring
    rw [e1] at h1
    rw [if_neg (by linarith), if_pos h1]
  · have hmn : n = m := by omega
    subst hmn
    rw [if_pos h2]

theorem sqrtMag_eq {x : ℚ} (e : Int) (n : Nat) (h1 : (2 : ℚ) ^ (2 * e) ≤ x)
    (h2 : x < (2 : ℚ) ^ (2 * e + 2)) (he : -126 ≤ e) (hn : 0 < n)
    (hn1 : ((n : ℚ) - 1 / 2) ^ 2 < x / (2 : ℚ) ^ (2 * e - 46))
    (hn2 : x / (2 : ℚ) ^ (2 * e - 46) < ((n : ℚ) + 1 / 2) ^ 2) :
    sqrtMag x = (n : ℚ) * (2 : ℚ) ^ (e - 23) := by
  have hx : 0 < x := lt_of_lt_of_le (zpow_pos (by norm_num) _) h1
  have h1' : ((2 : ℕ) : ℚ) ^ (2 * e) ≤ x := by exact_mod_cast h1
  have h2' : x < ((2 : ℕ) : ℚ) ^ (2 * e + 2) := by exact_mod_cast h2
  have a := (Int.zpow_le_iff_le_log (by norm_num) hx).mp h1'
  have b := (Int.lt_zpow_iff_log_lt (by norm_num) hx).mp h2'
  have hb : sqrtBinade x = e := by
    unfold sqrtBinade
    have : Int.log 2 x / 2 = e := by omega
    rw [this]; exact max_eq_left he
  unfold sqrtMag sqrtUlp
  rw [hb, sqrtUlp_sq, roundSqrt_eq_of_between n hn hn1 hn2]
  norm_cast

theorem dMax_eq : dMax = 14529495 / 8388608 := by
  unfold dMax
  rw [sqrtMag_eq 0 14529495 (by norm_num) (by norm_num) (by norm_num) (by norm_num)
    (by norm_num) (by norm_num)]
  norm_num

theorem COLOR_TOLERANCE_eq : COLOR_TOLERANCE = 13421773 / 67108864 := by
  unfold COLOR_TOLERANCE
  rw [f32_eq (-3) 13421773 (by norm_num) (by norm_num) (by norm_num)
    (by rw [abs_lt]; constructor <;> norm_num)]
  norm_num

theorem dMax_pos : 0 < dMax := by rw [dMax_eq]; norm_num

theorem toF32_of_between {x lo hi : ℚ} (hlo : lo ≤ x) (hhi : x ≤ hi)
    (flo : f32 lo = lo) (fhi : f32 hi = hi) (blo : -(2 ^ 128) < lo) (bhi : hi < 2 ^ 128) :
    ∃ y, toF32 x = some y ∧ lo ≤ y ∧ y ≤ hi := by
  have h1 : lo ≤ f32 x := flo ▸ f32_mono hlo
  have h2 : f32 x ≤ hi := fhi ▸ f32_mono hhi
  refine ⟨f32 x, ?_, h1, h2⟩
  unfold toF32
  rw [if_pos (abs_lt.mpr ⟨by linarith, by linarith⟩)]

theorem toF32_eq {x : ℚ} (e n : Int) (v : ℚ) (h1 : (2 : ℚ) ^ e ≤ x)
    (h2 : x < (2 : ℚ) ^ (e + 1)) (he : -126 ≤ e) (hn : |x / (2 : ℚ) ^ (e - 23) - n| < 1 / 2)
    (hv : (n : ℚ) * (2 : ℚ) ^ (e - 23) = v) (hfin : |v| < 2 ^ 128) : toF32 x = some v := by
  unfold toF32
  rw [f32_eq e n h1 h2 he hn, hv, if_pos hfin]

theorem toF32_zero : toF32 0 = some 0 := by
  unfold toF32; rw [f32_zero]; norm_num

theorem toF32_one : toF32 1 = some 1 := by
  unfold toF32; rw [f32_one]; norm_num

theorem toF32_two : toF32 2 = some 2 := by
  unfold toF32; rw [f32_two]; norm_num

theorem toF32_three : toF32 3 = some 3 := by
  unfold toF32; rw [f32_three]; norm_num

/-! ## The similarity test -/

theorem normalizedDistLe_eq_true_iff (c target : Vec3) (tol : ℚ) :
    normalizedDistLe c target tol = true ↔
      ∃ nd, normalizedDist c target = some nd ∧ nd ≤ tol := by
  unfold normalizedDistLe
  cases h : normalizedDist c target with
  | none => simp
  | some nd => simp

/-- The value of `normalizedDist` from the values of its ten operations. -/
theorem normalizedDist_of_steps (c t : Vec3) (dr dg db rr gg bb s1 s2 dist nd : ℚ)
    (h1 : toF32 (c.r - t.r) = some dr) (h2 : toF32 (c.g - t.g) = some dg)
    (h3 : toF32 (c.b - t.b) = some db) (h4 : toF32 (dr * dr) = some rr)
    (h5 : toF32 (dg * dg) = some gg) (h6 : toF32 (db * db) = some bb)
    (h7 : toF32 (rr + gg) = some s1) (h8 : toF32 (s1 + bb) = some s2)
    (h9 : fsqrt s2 = some dist) (h10 : toF32 (dist / dMax) = some nd) :
    normalizedDist c t = some nd := by
  unfold normalizedDist
  simp only [h1, h2, h3, h4, h5, h6, h7, h8, h9, h10, Option.some_bind]

/-- The test of the specification, over the reals, decided on the squares. -/
theorem withinToleranceReal_iff (c target : Vec3) (tol : ℚ) :
    withinToleranceReal c target tol ↔ (0 ≤ tol ∧ distSq c target ≤ 3 * (tol * tol)) := by
  unfold withinToleranceReal
  have h3 : (0 : ℝ) < Real.sqrt 3 := Real.sqrt_pos.mpr (by norm_num)
  have hsq : Real.sqrt 3 ^ 2 = 3 := Real.sq_sqrt (by norm_num)
  rw [div_le_iff₀ h3, Real.sqrt_le_iff]
  have hcast : (distSq c target ≤ 3 * (tol * tol)) ↔
      (((c.r : ℝ) - target.r) ^ 2 + ((c.g : ℝ) - target.g) ^ 2 + ((c.b : ℝ) - target.b) ^ 2
        ≤ ((tol : ℝ) * Real.sqrt 3) ^ 2) := by
    rw [mul_pow, hsq, ← Rat.cast_le (K := ℝ)]
    unfold distSq
    push_cast
    constructor <;> intro h <;> nlinarith [h]
  rw [hcast]
  constructor
  · rintro ⟨h0, h⟩
    refine ⟨?_, h⟩
    have : (0 : ℝ) ≤ tol := nonneg_of_mul_nonneg_left h0 h3
    exact_mod_cast this
  · rintro ⟨h0, h⟩
    exact ⟨mul_nonneg (by exact_mod_cast h0) h3.le, h⟩

/-! ## The sweep in closed form -/

theorem nested_foldl_eq_allCells {σ : Type} (f : Fin ROWS → Fin COLS → σ → σ) (st : σ) :
    (List.finRange ROWS).foldl
      (fun st i => (List.finRange COLS).foldl (fun st j => f i j st) st) st =
    allCells.foldl (fun st p => f p.1 p.2 st) st := by
  unfold allCells
  generalize List.finRange ROWS = rows
  induction rows generalizing st with
  | nil => rfl
  | cons i tl ih =>
    rw [List.foldl_cons, ih, List.flatMap_cons, List.foldl_append, List.foldl_map]

theorem allCells_nodup : allCells.Nodup := by decide

theorem mem_allCells (p : Fin ROWS × Fin COLS) : p ∈ allCells := by
  revert p; decide

theorem matchCell_setEliminated_of_ne (g : Grid) (target : Vec3) (tol : ℚ)
    (p q : Fin ROWS × Fin COLS) (h : q ≠ p) :
    matchCell (setEliminated g p.1 p.2) target tol q = matchCell g target tol q := by
  have : ¬ (q.1 = p.1 ∧ q.2 = p.2) := fun hh => h (Prod.ext hh.1 hh.2)
  simp [matchCell, setEliminated, this]

theorem foldl_sweepCell (target : Vec3) (tol : ℚ) :
    ∀ (ps : List (Fin ROWS × Fin COLS)), ps.Nodup → ∀ (g : Grid) (n : Int),
      ps.foldl (fun st p => sweepCell target tol p.1 p.2 st) (g, n) =
        (fun i j => if (i, j) ∈ ps ∧ matchCell g target tol (i, j) = true
            then { g i j with eliminated := true } else g i j,
         n + ((ps.filter (matchCell g target tol)).length : Int))
  | [], _, g, n => by simp
  | p :: tl, hnd, g, n => by
    obtain ⟨hp, htl⟩ := List.nodup_cons.mp hnd
    rw [List.foldl_cons]
    have hne : ∀ q ∈ tl, q ≠ p := fun q hq hqp => hp (hqp ▸ hq)
    by_cases hm : matchCell g target tol p = true
    · have h1 : sweepCell target tol p.1 p.2 (g, n) = (setEliminated g p.1 p.2, n + 1) := by
        simp only [matchCell, Bool.and_eq_true, Bool.not_eq_true'] at hm
        simp [sweepCell, hm.1, hm.2]
      rw [h1, foldl_sweepCell target tol tl htl]
      have hfilter : tl.filter (matchCell (setEliminated g p.1 p.2) target tol) =
          tl.filter (matchCell g target tol) :=
        List.filter_congr fun q hq => matchCell_setEliminated_of_ne g target tol p q (hne q hq)
      rw [hfilter, List.filter_cons_of_pos hm]
      refine Prod.ext ?_ ?_
      · funext i j
        by_cases hij : (i, j) = p
        · subst hij
          simp [hp, hm, setEliminated]
        · have hij' : ¬ (i = p.1 ∧ j = p.2) := fun hh => hij (Prod.ext hh.1 hh.2)
          simp [matchCell_setEliminated_of_ne g target tol p (i, j) hij, hij, setEliminated,
            hij']
      · simp only [List.length_cons]; push_cast; ring
    · have h1 : sweepCell target tol p.1 p.2 (g, n) = (g, n) := by
        simp only [matchCell, Bool.and_eq_true, Bool.not_eq_true', not_and] at hm
        unfold sweepCell
        by_cases he : (g p.1 p.2).eliminated = false
        · simp [he, hm he]
        · simp [he]
      rw [h1, foldl_sweepCell target tol tl htl, List.filter_cons_of_neg hm]
      refine Prod.ext ?_ rfl
      funext i j
      by_cases hij : (i, j) = p
      · subst hij
        simp [hp, hm]
      · simp [hij]

theorem sweep_eq (target : Vec3) (tol : ℚ) (g : Grid) (n : Int) :
    sweep target tol (g, n) =
      (fun i j => if matchCell g target tol (i, j) = true
          then { g i j with eliminated := true } else g i j,
       n + ((allCells.filter (matchCell g target tol)).length : Int)) := by
  unfold sweep
  rw [nested_foldl_eq_allCells (fun i j st => sweepCell target tol i j st),
    foldl_sweepCell target tol allCells allCells_nodup]
  simp [mem_allCells]

theorem filter_allCells_length (P : Fin ROWS × Fin COLS → Bool) :
    (allCells.filter P).length = (Finset.univ.filter fun p => P p = true).card := by
  rw [← List.toFinset_card_of_nodup (allCells_nodup.filter _)]
  congr 1
  ext p
  simp [mem_allCells]

theorem iSelected_decode (s : Game) (r : Fin ROWS) (c : Fin COLS)
    (hsel : s.iSelected = (r : Int) * (COLS : Int) + (c : Int)) :
    ¬ s.iSelected < 0 ∧ s.iSelected.toNat / COLS = r ∧ s.iSelected.toNat % COLS = c := by
  have hr : r.val < 6 := r.isLt
  have hc : c.val < 8 := c.isLt
  have hsel' : s.iSelected = (r.val : Int) * 8 + (c.val : Int) := hsel
  have h : s.iSelected.toNat = r.val * 8 + c.val := by omega
  refine ⟨by omega, ?_, ?_⟩
  · show s.iSelected.toNat / 8 = r.val
    omega
  · show s.iSelected.toNat % 8 = c.val
    omega

/-- Closed form of `eliminarSimilares` when `iSelected` names the cell `(r, c)`. -/
theorem eliminarSimilares_eq (s : Game) (tol : ℚ) (r : Fin ROWS) (c : Fin COLS)
    (hsel : s.iSelected = (r : Int) * (COLS : Int) + (c : Int)) :
    eliminarSimilares s tol = some
      ({ s with
          grid := fun i j =>
            if (i, j) = (r, c) ∨ normalizedDistLe (s.grid i j).color (s.grid r c).color tol = true
            then { s.grid i j with eliminated := true } else s.grid i j
          iSelected := -1 },
       1 + ((Finset.univ.filter fun p : Fin ROWS × Fin COLS =>
          p ≠ (r, c) ∧ (s.grid p.1 p.2).eliminated = false ∧
            normalizedDistLe (s.grid p.1 p.2).color (s.grid r c).color tol = true).card : Int)) := by
  obtain ⟨hneg, hrow, hcol⟩ := iSelected_decode s r c hsel
  have hlt : s.iSelected.toNat / COLS < ROWS := by rw [hrow]; exact r.isLt
  have hr : (⟨s.iSelected.toNat / COLS, hlt⟩ : Fin ROWS) = r := Fin.ext hrow
  have hc : (⟨s.iSelected.toNat % COLS, Nat.mod_lt _ (by decide)⟩ : Fin COLS) = c :=
    Fin.ext hcol
  unfold eliminarSimilares
  simp only [if_neg hneg, dif_pos hlt, hr, hc, sweep_eq, filter_allCells_length]
  have htarget : (setEliminated s.grid r c r c).color = (s.grid r c).color := by
    simp [setEliminated]
  rw [htarget]
  have hmatch : ∀ p : Fin ROWS × Fin COLS,
      matchCell (setEliminated s.grid r c) (s.grid r c).color tol p = true ↔
        (p ≠ (r, c) ∧ (s.grid p.1 p.2).eliminated = false ∧
          normalizedDistLe (s.grid p.1 p.2).color (s.grid r c).color tol = true) := by
    intro p
    by_cases hp : p = (r, c)
    · subst hp; simp [matchCell, setEliminated]
    · have hp' : ¬ (p.1 = r ∧ p.2 = c) := fun hh => hp (Prod.ext hh.1 hh.2)
      simp [matchCell, setEliminated, hp, hp']
  have hcount : (Finset.univ.filter fun p : Fin ROWS × Fin COLS =>
      matchCell (setEliminated s.grid r c) (s.grid r c).color tol p = true).card =
      (Finset.univ.filter fun p : Fin ROWS × Fin COLS =>
        p ≠ (r, c) ∧ (s.grid p.1 p.2).eliminated = false ∧
          normalizedDistLe (s.grid p.1 p.2).color (s.grid r c).color tol = true).card := by
    congr 1
    ext p
    simp only [Finset.mem_filter, Finset.mem_univ, true_and]
    exact hmatch p
  rw [hcount]
  have hgrid : (fun i j =>
      if matchCell (setEliminated s.grid r c) (s.grid r c).color tol (i, j) = true
      then { setEliminated s.grid r c i j with eliminated := true }
      else setEliminated s.grid r c i j) =
      (fun i j =>
        if (i, j) = (r, c) ∨ normalizedDistLe (s.grid i j).color (s.grid r c).color tol = true
        then { s.grid i j with eliminated := true } else s.grid i j) := by
    funext i j
    by_cases hp : (i, j) = (r, c)
    · have hm : ¬ matchCell (setEliminated s.grid r c) (s.grid r c).color tol (i, j) = true := by
        rw [hmatch]; exact fun h => h.1 hp
      have hij : i = r ∧ j = c := by simpa using hp
      simp [hm, hp, setEliminated, hij]
    · have hij : ¬ (i = r ∧ j = c) := by simpa using hp
      by_cases hm : matchCell (setEliminated s.grid r c) (s.grid r c).color tol (i, j) = true
      · have hm' := (hmatch _).mp hm
        simp [hm, hm'.2.2, setEliminated, hij]
      · have hm' := fun h => hm ((hmatch _).mpr h)
        simp only [if_neg hm, if_neg hp, false_or, setEliminated, if_neg hij]
        by_cases hw : normalizedDistLe (s.grid i j).color (s.grid r c).color tol = true
        · have he : (s.grid i j).eliminated = true := by
            by_contra hne
            exact hm' ⟨hp, by simpa using hne, hw⟩
          rw [if_pos (Or.inr hw)]
          cases hq : s.grid i j
          rw [hq] at he
          simp at he
          simp [he]
        · rw [if_neg (fun h => h.elim hp hw)]
  rw [hgrid]

/-- What `eliminarSimilares` does to the eliminated flags, in terms of the executable test. -/
theorem eliminated_after_iff (g : Grid) (target : Vec3) (tol : ℚ) (r : Fin ROWS) (c : Fin COLS)
    (i : Fin ROWS) (j : Fin COLS) :
    (if (i, j) = (r, c) ∨ normalizedDistLe (g i j).color target tol = true
      then { g i j with eliminated := true } else g i j).eliminated = true ↔
    ((g i j).eliminated = true ∨ (i, j) = (r, c) ∨
      normalizedDistLe (g i j).color target tol = true) := by
  by_cases h : (i, j) = (r, c) ∨ normalizedDistLe (g i j).color target tol = true
  · rw [if_pos h]
    exact ⟨fun _ => Or.inr h, fun _ => rfl⟩
  · rw [if_neg h]
    exact ⟨Or.inl, fun h' => h'.elim id fun hh => absurd hh h⟩

/-- Claim C1, as amended. When `iSelected` names the live cell `(r, c)`, `eliminarSimilares`
returns, and afterwards a cell is eliminated exactly when it was eliminated before, or it is
the selected cell, or the normalised distance of its colour to the selected cell's colour
(as it was before the call), computed as the code computes it with every operation rounded to
binary32, is a finite number that is at most the tolerance. -/
theorem eliminarSimilares_eliminated_iff (s : Game) (tol : ℚ) (r : Fin ROWS) (c : Fin COLS)
    (hsel : s.iSelected = (r : Int) * (COLS : Int) + (c : Int))
    (hlive : (s.grid r c).eliminated = false) :
    ∃ s' n, eliminarSimilares s tol = some (s', n) ∧
      ∀ i j, ((s'.grid i j).eliminated = true ↔
        ((s.grid i j).eliminated = true ∨ (i, j) = (r, c) ∨
          ∃ nd, normalizedDist (s.grid i j).color (s.grid r c).color = some nd ∧
            nd ≤ tol)) := by
  have _ := hlive
  refine ⟨_, _, eliminarSimilares_eq s tol r c hsel, fun i j => ?_⟩
  rw [← normalizedDistLe_eq_true_iff]
  exact eliminated_after_iff s.grid (s.grid r c).color tol r c i j

/-- Claim C4. When `iSelected` names a live cell, the count returned by `eliminarSimilares` is
the number of cells that were live before the call and are eliminated after it, and it is at
least one. -/
theorem eliminarSimilares_count (s : Game) (tol : ℚ) (r : Fin ROWS) (c : Fin COLS)
    (hsel : s.iSelected = (r : Int) * (COLS : Int) + (c : Int))
    (hlive : (s.grid r c).eliminated = false) :
    ∃ s' n, eliminarSimilares s tol = some (s', n) ∧
      n = ((Finset.univ.filter fun p : Fin ROWS × Fin COLS =>
        (s.grid p.1 p.2).eliminated = false ∧ (s'.grid p.1 p.2).eliminated = true).card : Int) ∧
      1 ≤ n := by
  refine ⟨_, _, eliminarSimilares_eq s tol r c hsel, ?_, ?_⟩
  · have hsplit : (Finset.univ.filter fun p : Fin ROWS × Fin COLS =>
        (s.grid p.1 p.2).eliminated = false ∧
          (if (p.1, p.2) = (r, c) ∨
              normalizedDistLe (s.grid p.1 p.2).color (s.grid r c).color tol = true
            then { s.grid p.1 p.2 with eliminated := true }
            else s.grid p.1 p.2).eliminated = true) =
        insert (r, c) (Finset.univ.filter fun p : Fin ROWS × Fin COLS =>
          p ≠ (r, c) ∧ (s.grid p.1 p.2).eliminated = false ∧
            normalizedDistLe (s.grid p.1 p.2).color (s.grid r c).color tol = true) := by
      ext p
      simp only [Finset.mem_filter, Finset.mem_univ, true_and, Finset.mem_insert]
      rw [eliminated_after_iff]
      by_cases hp : p = (r, c)
      · subst hp; simp [hlive]
      · constructor
        · rintro ⟨h1, h2 | h2 | h2⟩
          · rw [h1] at h2; cases h2
          · exact absurd h2 hp
          · exact Or.inr ⟨hp, h1, h2⟩
        · rintro (h | ⟨_, h1, h2⟩)
          · exact absurd h hp
          · exact ⟨h1, Or.inr (Or.inr h2)⟩
    simp only []
    rw [hsplit, Finset.card_insert_of_not_mem (by simp)]
    push_cast
    ring
  · have : (0 : Int) ≤ ((Finset.univ.filter fun p : Fin ROWS × Fin COLS =>
        p ≠ (r, c) ∧ (s.grid p.1 p.2).eliminated = false ∧
          normalizedDistLe (s.grid p.1 p.2).color (s.grid r c).color tol = true).card : Int) :=
      Int.natCast_nonneg _
    omega

theorem normalizedDistLe_of_unit_cube (a b : Vec3) (tol : ℚ) (ht : 1 ≤ tol)
    (ha : (0 ≤ a.r ∧ a.r ≤ 1) ∧ (0 ≤ a.g ∧ a.g ≤ 1) ∧ (0 ≤ a.b ∧ a.b ≤ 1))
    (hb : (0 ≤ b.r ∧ b.r ≤ 1) ∧ (0 ≤ b.g ∧ b.g ≤ 1) ∧ (0 ≤ b.b ∧ b.b ≤ 1)) :
    normalizedDistLe a b tol = true := by
  obtain ⟨⟨a1, a2⟩, ⟨a3, a4⟩, a5, a6⟩ := ha
  obtain ⟨⟨b1, b2⟩, ⟨b3, b4⟩, b5, b6⟩ := hb
  have hdiff : ∀ u v : ℚ, 0 ≤ u → u ≤ 1 → 0 ≤ v → v ≤ 1 →
      ∃ d, toF32 (u - v) = some d ∧ -1 ≤ d ∧ d ≤ 1 := fun u v h1 h2 h3 h4 =>
    toF32_of_between (by linarith) (by linarith) f32_neg_one f32_one (by norm_num)
      (by norm_num)
  have hsq : ∀ d : ℚ, -1 ≤ d → d ≤ 1 → ∃ q, toF32 (d * d) = some q ∧ 0 ≤ q ∧ q ≤ 1 :=
    fun d h1 h2 =>
    toF32_of_between (mul_self_nonneg d) (by nlinarith) f32_zero f32_one (by norm_num)
      (by norm_num)
  obtain ⟨dr, hdr, hdr1, hdr2⟩ := hdiff a.r b.r a1 a2 b1 b2
  obtain ⟨dg, hdg, hdg1, hdg2⟩ := hdiff a.g b.g a3 a4 b3 b4
  obtain ⟨db, hdb, hdb1, hdb2⟩ := hdiff a.b b.b a5 a6 b5 b6
  obtain ⟨rr, hrr, hrr1, hrr2⟩ := hsq dr hdr1 hdr2
  obtain ⟨gg, hgg, hgg1, hgg2⟩ := hsq dg hdg1 hdg2
  obtain ⟨bb, hbb, hbb1, hbb2⟩ := hsq db hdb1 hdb2
  obtain ⟨s1, hs1, hs11, hs12⟩ : ∃ y, toF32 (rr + gg) = some y ∧ 0 ≤ y ∧ y ≤ 2 :=
    toF32_of_between (by linarith) (by linarith) f32_zero f32_two (by norm_num) (by norm_num)
  obtain ⟨s2, hs2, hs21, hs22⟩ : ∃ y, toF32 (s1 + bb) = some y ∧ 0 ≤ y ∧ y ≤ 3 :=
    toF32_of_between (by linarith) (by linarith) f32_zero f32_three (by norm_num)
      (by norm_num)
  have hsqrt : fsqrt s2 = some (sqrtMag s2) := by
    unfold fsqrt
    rw [if_neg (not_lt.mpr hs21)]
  have hdist : sqrtMag s2 ≤ dMax := sqrtMag_mono hs21 hs22
  obtain ⟨nd, hnd, _, hnd1⟩ : ∃ y, toF32 (sqrtMag s2 / dMax) = some y ∧ 0 ≤ y ∧ y ≤ 1 :=
    toF32_of_between (div_nonneg (sqrtMag_nonneg s2) dMax_pos.le)
      ((div_le_one dMax_pos).mpr hdist) f32_zero f32_one (by norm_num) (by norm_num)
  rw [normalizedDistLe_eq_true_iff]
  exact ⟨nd, normalizedDist_of_steps a b dr dg db rr gg bb s1 s2 _ nd hdr hdg hdb hrr hgg hbb
    hs1 hs2 hsqrt hnd, hnd1.trans ht⟩

/-- Claim C8. When every colour channel of the grid lies in `[0, 1]`, `iSelected` names a live
cell and the tolerance is at least one, `eliminarSimilares` leaves no cell live and returns
the number of cells that were live before the call. -/
theorem eliminarSimilares_tolerance_ge_one (s : Game) (tol : ℚ) (r : Fin ROWS) (c : Fin COLS)
    (hsel : s.iSelected = (r : Int) * (COLS : Int) + (c : Int))
    (hlive : (s.grid r c).eliminated = false)
    (hcube : ∀ i j, (0 ≤ (s.grid i j).color.r ∧ (s.grid i j).color.r ≤ 1) ∧
      (0 ≤ (s.grid i j).color.g ∧ (s.grid i j).color.g ≤ 1) ∧
      (0 ≤ (s.grid i j).color.b ∧ (s.grid i j).color.b ≤ 1))
    (htol : 1 ≤ tol) :
    ∃ s' n, eliminarSimilares s tol = some (s', n) ∧
      (∀ i j, (s'.grid i j).eliminated = true) ∧
      n = ((Finset.univ.filter fun p : Fin ROWS × Fin COLS =>
        (s.grid p.1 p.2).eliminated = false).card : Int) := by
  have hw : ∀ i j, normalizedDistLe (s.grid i j).color (s.grid r c).color tol = true :=
    fun i j => normalizedDistLe_of_unit_cube _ _ tol htol (hcube i j) (hcube r c)
  refine ⟨_, _, eliminarSimilares_eq s tol r c hsel, fun i j => ?_, ?_⟩
  · simp [hw i j]
  · have hsplit : (Finset.univ.filter fun p : Fin ROWS × Fin COLS =>
        (s.grid p.1 p.2).eliminated = false) =
        insert (r, c) (Finset.univ.filter fun p : Fin ROWS × Fin COLS =>
          p ≠ (r, c) ∧ (s.grid p.1 p.2).eliminated = false ∧
            normalizedDistLe (s.grid p.1 p.2).color (s.grid r c).color tol = true) := by
      ext p
      simp only [Finset.mem_filter, Finset.mem_univ, true_and, Finset.mem_insert, hw, and_true]
      by_cases hp : p = (r, c)
      · subst hp; simp [hlive]
      · simp [hp]
    rw [hsplit, Finset.card_insert_of_not_mem (by simp)]
    push_cast
    ring

theorem wrapInt_of_inRange {x : Int} (h : InIntRange x) : wrapInt x = x := by
  unfold InIntRange at h
  unfold wrapInt
  omega

theorem scoreAfter_nonneg (score attempts n : Int) : 0 ≤ scoreAfter score attempts n := by
  unfold scoreAfter
  split_ifs with h
  · exact le_refl 0
  · exact not_lt.mp h

theorem scoreAfter_of_inRange (score attempts n : Int) (hatt : InIntRange (attempts + 1))
    (hpen : InIntRange (n - (attempts + 1)))
    (hsc : InIntRange (score + (n - (attempts + 1)))) :
    scoreAfter score attempts n = max 0 (score + n - (attempts + 1)) := by
  unfold scoreAfter
  rw [wrapInt_of_inRange hatt, wrapInt_of_inRange hpen, wrapInt_of_inRange hsc]
  split_ifs with h
  · rw [max_eq_left (by omega)]
  · rw [max_eq_right (by omega)]; ring

theorem updateScore_of_pos (s : Game) (n : Int) (hn : 0 < n) :
    updateScore s n =
      { s with attempts := wrapInt (s.attempts + 1)
               score := scoreAfter s.score s.attempts n } := by
  unfold updateScore scoreAfter
  rw [if_pos hn]

theorem processSelection_of_some (s s1 : Game) (n : Int) (tol : ℚ)
    (h0 : 0 ≤ s.iSelected) (hgo : s.gameOver = false)
    (h : eliminarSimilares s tol = some (s1, n)) (hn : 0 < n) :
    processSelection s tol = some
      { grid := s1.grid
        attempts := wrapInt (s1.attempts + 1)
        score := scoreAfter s1.score s1.attempts n
        gameOver := s1.gameOver || !anyActiveCell s1.grid
        iSelected := -1 } := by
  unfold processSelection
  rw [if_pos ⟨h0, hgo⟩, h]
  simp only []
  rw [updateScore_of_pos _ _ hn]
  cases ha : anyActiveCell s1.grid <;> simp [ha]

theorem matchCount_le (g : Grid) (r : Fin ROWS) (c : Fin COLS) (tol : ℚ) :
    matchCount g r c tol ≤ 48 := by
  unfold matchCount
  exact (Finset.card_filter_le _ _).trans (le_of_eq rfl)

/-- Closed form of `eliminarSimilares` and of the selection-processing step when `iSelected`
names the cell `(r, c)` and the game is not over. -/
theorem selection_step_eq (s : Game) (tol : ℚ) (r : Fin ROWS) (c : Fin COLS)
    (hsel : s.iSelected = (r : Int) * (COLS : Int) + (c : Int))
    (hgo : s.gameOver = false) :
    eliminarSimilares s tol = some
      ({ s with grid := sweptGrid s.grid r c tol, iSelected := -1 },
        1 + (matchCount s.grid r c tol : Int)) ∧
    processSelection s tol = some
      { grid := sweptGrid s.grid r c tol
        attempts := wrapInt (s.attempts + 1)
        score := scoreAfter s.score s.attempts (1 + (matchCount s.grid r c tol : Int))
        gameOver := !anyActiveCell (sweptGrid s.grid r c tol)
        iSelected := -1 } := by
  have heq : eliminarSimilares s tol = some
      ({ s with grid := sweptGrid s.grid r c tol, iSelected := -1 },
        1 + (matchCount s.grid r c tol : Int)) := eliminarSimilares_eq s tol r c hsel
  refine ⟨heq, ?_⟩
  have h0 : 0 ≤ s.iSelected := not_lt.mp (iSelected_decode s r c hsel).1
  rw [processSelection_of_some s _ _ tol h0 hgo heq (by omega)]
  simp [hgo]

/-- Claim C2, as amended. In a state that is not game-over and whose `iSelected` names a
cell, and in which the three `int` computations `attempts + 1`, `removedCount - attempts'`
and `score + (removedCount - attempts')` stay within the range of a 32-bit `int`, the
selection-processing step returns, and with `n` the count returned by `eliminarSimilares` it
leaves `attempts` one higher and `score` equal to `max 0 (score + n - attempts')`, the penalty
being the attempt number after the increment. -/
theorem processSelection_attempts_score (s : Game) (tol : ℚ) (r : Fin ROWS) (c : Fin COLS)
    (hsel : s.iSelected = (r : Int) * (COLS : Int) + (c : Int))
    (hgo : s.gameOver = false)
    (hatt : InIntRange (s.attempts + 1))
    (hpen : InIntRange (1 + (matchCount s.grid r c tol : Int) - (s.attempts + 1)))
    (hsc : InIntRange
      (s.score + (1 + (matchCount s.grid r c tol : Int) - (s.attempts + 1)))) :
    ∃ s1 n s', eliminarSimilares s tol = some (s1, n) ∧ processSelection s tol = some s' ∧
      s'.attempts = s.attempts + 1 ∧
      s'.score = max 0 (s.score + n - s'.attempts) := by
  obtain ⟨h1, h2⟩ := selection_step_eq s tol r c hsel hgo
  refine ⟨_, _, _, h1, h2, wrapInt_of_inRange hatt, ?_⟩
  show scoreAfter s.score s.attempts (1 + (matchCount s.grid r c tol : Int)) =
    max 0 (s.score + (1 + (matchCount s.grid r c tol : Int)) - wrapInt (s.attempts + 1))
  rw [scoreAfter_of_inRange _ _ _ hatt hpen hsc, wrapInt_of_inRange hatt]

/-! ## resetGame -/

theorem resetCell_fresh (rand : Nat → Nat) (i : Fin ROWS) (j : Fin COLS) (st : Grid × Nat) :
    IsFreshQuad rand i j ((resetCell rand i j st).1 i j) := by
  unfold resetCell setQuad IsFreshQuad
  simp only [and_self, if_true]
  exact ⟨by norm_num, by norm_num, trivial, st.2, rfl⟩

theorem resetCell_other (rand : Nat → Nat) (i : Fin ROWS) (j : Fin COLS) (st : Grid × Nat)
    (a : Fin ROWS) (b : Fin COLS) (h : (a, b) ≠ (i, j)) :
    (resetCell rand i j st).1 a b = st.1 a b := by
  have h' : ¬ (a = i ∧ b = j) := fun hh => h (Prod.ext hh.1 hh.2)
  simp [resetCell, setQuad, h']

theorem foldl_resetCell (rand : Nat → Nat) :
    ∀ (ps : List (Fin ROWS × Fin COLS)) (st : Grid × Nat) (p : Fin ROWS × Fin COLS),
      (p ∈ ps → IsFreshQuad rand p.1 p.2
        ((ps.foldl (fun st q => resetCell rand q.1 q.2 st) st).1 p.1 p.2)) ∧
      (p ∉ ps → (ps.foldl (fun st q => resetCell rand q.1 q.2 st) st).1 p.1 p.2 = st.1 p.1 p.2)
  | [], st, p => by simp
  | q :: tl, st, p => by
    rw [List.foldl_cons]
    have ih := foldl_resetCell rand tl (resetCell rand q.1 q.2 st) p
    constructor
    · intro hp
      by_cases hptl : p ∈ tl
      · exact ih.1 hptl
      · have hpq : p = q := (List.mem_cons.mp hp).resolve_right hptl
        rw [ih.2 hptl, hpq]
        exact resetCell_fresh rand q.1 q.2 st
    · intro hp
      have hptl : p ∉ tl := fun h => hp (List.mem_cons_of_mem _ h)
      have hpq : p ≠ q := fun h => hp (h ▸ List.mem_cons_self _ _)
      rw [ih.2 hptl]
      exact resetCell_other rand q.1 q.2 st p.1 p.2 hpq

theorem resetGame_fresh (s : Game) (rand : Nat → Nat) (i : Fin ROWS) (j : Fin COLS) :
    IsFreshQuad rand i j ((resetGame s rand).grid i j) := by
  unfold resetGame
  simp only []
  rw [nested_foldl_eq_allCells (fun i j st => resetCell rand i j st)]
  exact (foldl_resetCell rand allCells (s.grid, 0) (i, j)).1 (mem_allCells _)

theorem liveCount_of_all_live (g : Grid) (h : ∀ i j, (g i j).eliminated = false) :
    liveCount g = 48 := by
  unfold liveCount
  rw [Finset.filter_true_of_mem (fun p _ => h p.1 p.2)]
  rfl

theorem f32_unit_interval {x : ℚ} (h0 : 0 ≤ x) (h1 : x ≤ 1) : 0 ≤ f32 x ∧ f32 x ≤ 1 :=
  ⟨f32_zero ▸ f32_mono h0, f32_one ▸ f32_mono h1⟩

/-- Claim C6, as amended. Whatever the prior state and whatever values `rand()` returns,
after `resetGame` all 48 cells are live, `attempts = 0`, `score = 0`, `gameOver = false`, the
selection is `-1`, and every colour channel of every cell is the binary32 value nearest to
`k / 255` for a natural `k ≤ 255`, and lies in `[0, 1]`. -/
theorem resetGame_postcondition (s : Game) (rand : Nat → Nat) :
    (∀ i j, ((resetGame s rand).grid i j).eliminated = false) ∧
    liveCount (resetGame s rand).grid = ROWS * COLS ∧
    (resetGame s rand).attempts = 0 ∧
    (resetGame s rand).score = 0 ∧
    (resetGame s rand).gameOver = false ∧
    (resetGame s rand).iSelected = -1 ∧
    ∀ i j, ∃ kr kg kb : Nat, kr ≤ 255 ∧ kg ≤ 255 ∧ kb ≤ 255 ∧
      ((resetGame s rand).grid i j).color.r = f32 ((kr : ℚ) / 255) ∧
      ((resetGame s rand).grid i j).color.g = f32 ((kg : ℚ) / 255) ∧
      ((resetGame s rand).grid i j).color.b = f32 ((kb : ℚ) / 255) ∧
      (0 ≤ ((resetGame s rand).grid i j).color.r ∧ ((resetGame s rand).grid i j).color.r ≤ 1) ∧
      (0 ≤ ((resetGame s rand).grid i j).color.g ∧ ((resetGame s rand).grid i j).color.g ≤ 1) ∧
      (0 ≤ ((resetGame s rand).grid i j).color.b ∧ ((resetGame s rand).grid i j).color.b ≤ 1) := by
  have hlive : ∀ i j, ((resetGame s rand).grid i j).eliminated = false :=
    fun i j => (resetGame_fresh s rand i j).2.2.1
  refine ⟨hlive, liveCount_of_all_live _ hlive, rfl, rfl, rfl, rfl, fun i j => ?_⟩
  obtain ⟨_, _, _, n, hc⟩ := resetGame_fresh s rand i j
  have hbound : ∀ k : Nat, k ≤ 255 →
      (0 : ℚ) ≤ f32 ((k : ℚ) / 255) ∧ f32 ((k : ℚ) / 255) ≤ 1 := by
    intro k hk
    have h1 : (0 : ℚ) ≤ (k : ℚ) := Nat.cast_nonneg k
    have h2 : (k : ℚ) ≤ 255 := by exact_mod_cast hk
    exact f32_unit_interval (by positivity) ((div_le_one (by norm_num)).mpr h2)
  have hr : rand n % 256 ≤ 255 := by omega
  have hg : rand (n + 1) % 256 ≤ 255 := by omega
  have hb : rand (n + 2) % 256 ≤ 255 := by omega
  refine ⟨rand n % 256, rand (n + 1) % 256, rand (n + 2) % 256, hr, hg, hb, ?_⟩
  rw [hc]
  exact ⟨rfl, rfl, rfl, hbound _ hr, hbound _ hg, hbound _ hb⟩

/-! ## mouse_button_callback -/

theorem selectCell_of_live (s : Game) (r : Fin ROWS) (c : Fin COLS)
    (hlive : (s.grid r c).eliminated = false) :
    selectCell s (r : Int) (c : Int) =
      { s with iSelected := (r : Int) * (COLS : Int) + (c : Int) } := by
  have hr : r.val < 6 := r.isLt
  have hc : c.val < 8 := c.isLt
  have h : (c : Int) ≥ 0 ∧ (c : Int) < (COLS : Int) ∧ (r : Int) ≥ 0 ∧ (r : Int) < (ROWS : Int) := by
    refine ⟨by omega, ?_, by omega, ?_⟩
    · show (c.val : Int) < 8
      omega
    · show (r.val : Int) < 6
      omega
  unfold selectCell
  rw [dif_pos h]
  have e1 : (⟨(r : Int).toNat, by omega⟩ : Fin ROWS) = r := Fin.ext (by simp)
  have e2 : (⟨(c : Int).toNat, by omega⟩ : Fin COLS) = c := Fin.ext (by simp)
  simp only [e1, e2, hlive]
  simp

theorem selectCell_cases (s : Game) (row col : Int) :
    selectCell s row col = s ∨
      ∃ (r : Fin ROWS) (c : Fin COLS), (r : Int) = row ∧ (c : Int) = col ∧
        (s.grid r c).eliminated = false ∧
        selectCell s row col = { s with iSelected := (r : Int) * (COLS : Int) + (c : Int) } := by
  unfold selectCell
  by_cases h : col ≥ 0 ∧ col < (COLS : Int) ∧ row ≥ 0 ∧ row < (ROWS : Int)
  · rw [dif_pos h]
    by_cases he : (s.grid ⟨row.toNat, by omega⟩ ⟨col.toNat, by omega⟩).eliminated = false
    · right
      refine ⟨⟨row.toNat, by omega⟩, ⟨col.toNat, by omega⟩, ?_, ?_, he, ?_⟩
      · show ((row.toNat : Nat) : Int) = row
        omega
      · show ((col.toNat : Nat) : Int) = col
        omega
      · have e1 : ((row.toNat : Nat) : Int) = row := by omega
        have e2 : ((col.toNat : Nat) : Int) = col := by omega
        simp [he, e1, e2]
    · left
      simp [he]
  · left
    rw [dif_neg h]

/-- Claim C5. For the pair `(row, col)` that a left click computes from the cursor: when `row`
is outside `[0, 6)`, or `col` is outside `[0, 8)`, or the cell `grid[row][col]` is already
eliminated, or `gameOver` holds, the click handler returns the state unchanged. -/
theorem mouse_button_callback_rejects (s : Game) (xpos ypos : ℚ)
    (h : clickRow ypos < 0 ∨ (ROWS : Int) ≤ clickRow ypos ∨
      clickCol xpos < 0 ∨ (COLS : Int) ≤ clickCol xpos ∨
      (∃ (r : Fin ROWS) (c : Fin COLS), (r : Int) = clickRow ypos ∧ (c : Int) = clickCol xpos ∧
        (s.grid r c).eliminated = true) ∨
      s.gameOver = true) :
    mouse_button_callback s GLFW_MOUSE_BUTTON_LEFT GLFW_PRESS xpos ypos = s := by
  unfold mouse_button_callback
  by_cases hgo : s.gameOver = false
  · rw [if_pos ⟨rfl, rfl, hgo⟩]
    simp only []
    rcases selectCell_cases s (clickRow ypos) (clickCol xpos) with hs | ⟨r, c, hr, hc, hl, _⟩
    · exact hs
    · exfalso
      have hr6 : r.val < 6 := r.isLt
      have hc8 : c.val < 8 := c.isLt
      have hr' : (r.val : Int) = clickRow ypos := hr
      have hc' : (c.val : Int) = clickCol xpos := hc
      rcases h with h | h | h | h | ⟨r2, c2, hr2, hc2, he⟩ | h
      · omega
      · have : (6 : Int) ≤ clickRow ypos := h
        omega
      · omega
      · have : (8 : Int) ≤ clickCol xpos := h
        omega
      · have hr2' : (r2.val : Int) = clickRow ypos := hr2
        have hc2' : (c2.val : Int) = clickCol xpos := hc2
        have e1 : r2 = r := Fin.ext (by omega)
        have e2 : c2 = c := Fin.ext (by omega)
        rw [e1, e2, hl] at he
        cases he
      · rw [hgo] at h; cases h
  · rw [if_neg (fun hh => hgo hh.2.2)]

theorem mouse_button_callback_select (s : Game) (xpos ypos : ℚ) (r : Fin ROWS) (c : Fin COLS)
    (hrow : clickRow ypos = (r : Int)) (hcol : clickCol xpos = (c : Int))
    (hlive : (s.grid r c).eliminated = false) (hgo : s.gameOver = false) :
    mouse_button_callback s GLFW_MOUSE_BUTTON_LEFT GLFW_PRESS xpos ypos =
      { s with iSelected := (r : Int) * (COLS : Int) + (c : Int) } := by
  unfold mouse_button_callback
  rw [if_pos ⟨rfl, rfl, hgo⟩]
  simp only [hrow, hcol]
  exact selectCell_of_live s r c hlive

/-- Every cursor abscissa in the left half of a drawn cell of column `col ≥ 1` is mapped by
the click handler to the column before it. -/
theorem clickCol_left_half (col : Nat) (x : ℚ) (hcol : 1 ≤ col)
    (hx : (col : ℚ) * 100 < x ∧ x < (col : ℚ) * 100 + 50) :
    clickCol x = (col : Int) - 1 := by
  have hc : (1 : ℚ) ≤ (col : ℚ) := by exact_mod_cast hcol
  have hpos : (0 : ℚ) ≤ (x - ((QUAD_W / 2 : Nat) : ℚ)) / (QUAD_W : ℚ) := by
    apply div_nonneg
    · norm_num; linarith [hx.1]
    · norm_num
  unfold clickCol truncToInt
  rw [if_pos hpos, Int.floor_eq_iff]
  constructor
  · rw [le_div_iff₀ (by norm_num)]
    push_cast
    norm_num
    linarith [hx.1]
  · rw [div_lt_iff₀ (by norm_num)]
    push_cast
    norm_num
    linarith [hx.2]

/-- Claim C10, what the code does. After `resetGame` the cell in row 0, column 1 is drawn on
the rectangle with corners `(100, 0)` and `(200, 100)`; the cursor position `(120, 20)` lies
strictly inside it, and the click handler computes row 0, column 0 from it. -/
theorem click_inside_drawn_cell_selects_neighbour (s : Game) (rand : Nat → Nat) :
    createQuad.map (drawnVertex ((resetGame s rand).grid 0 1)) =
      [(100, 100), (100, 0), (200, 100), (200, 0)] ∧
    ((100 : ℚ) < 120 ∧ (120 : ℚ) < 200 ∧ (0 : ℚ) < 20 ∧ (20 : ℚ) < 100) ∧
    clickRow 20 = 0 ∧ clickCol 120 = 0 := by
  obtain ⟨hp, hd, _, _⟩ := resetGame_fresh s rand 0 1
  refine ⟨?_, by norm_num, by norm_num [clickRow, truncToInt],
    by norm_num [clickCol, truncToInt]⟩
  simp only [createQuad, drawnVertex, List.map, hp, hd]
  norm_num

/-! ## Invariants of the reachable states -/

theorem anyActiveCell_eq_false_iff (g : Grid) :
    anyActiveCell g = false ↔ ∀ i j, (g i j).eliminated = true := by
  simp [anyActiveCell, List.any_eq_false, List.mem_finRange]

theorem anyActiveCell_eq_true_iff (g : Grid) :
    anyActiveCell g = true ↔ ∃ i j, (g i j).eliminated = false := by
  simp [anyActiveCell, List.any_eq_true, List.mem_finRange]

theorem inv_resetGame (s : Game) (rand : Nat → Nat) : Inv (resetGame s rand) := by
  have hlive : ((resetGame s rand).grid 0 0).eliminated = false :=
    (resetGame_fresh s rand 0 0).2.2.1
  refine ⟨?_, le_refl 0, Or.inl rfl⟩
  rw [anyActiveCell_eq_false_iff]
  constructor
  · intro hh; cases hh
  · intro hh
    rw [hh 0 0] at hlive
    cases hlive

theorem inv_mouse_button_callback (s : Game) (button action : Int) (xpos ypos : ℚ)
    (h : Inv s) : Inv (mouse_button_callback s button action xpos ypos) := by
  unfold mouse_button_callback
  split_ifs with hc
  · simp only []
    rcases selectCell_cases s (clickRow ypos) (clickCol xpos) with hs | ⟨r, c, _, _, hl, hs⟩
    · rw [hs]; exact h
    · rw [hs]
      exact ⟨h.1, h.2.1, Or.inr ⟨r, c, rfl, hl, hc.2.2⟩⟩
  · exact h

theorem inv_key_callback (s : Game) (key action : Int) (rand : Nat → Nat) (h : Inv s) :
    Inv (key_callback s key action rand) := by
  unfold key_callback
  split_ifs
  · exact h
  · exact inv_resetGame s rand
  · exact h

theorem processSelection_idle (s : Game) (tol : ℚ)
    (h : ¬ (s.iSelected ≥ 0 ∧ s.gameOver = false)) : processSelection s tol = some s := by
  unfold processSelection
  rw [if_neg h]

theorem inv_processSelection (s s' : Game) (tol : ℚ) (h : Inv s)
    (hstep : processSelection s tol = some s') : Inv s' := by
  by_cases hc : s.iSelected ≥ 0 ∧ s.gameOver = false
  · rcases h.2.2 with hsel | ⟨r, c, hsel, _, hgo⟩
    · rw [hsel] at hc; exact absurd hc.1 (by decide)
    · rw [(selection_step_eq s tol r c hsel hgo).2] at hstep
      cases hstep
      refine ⟨?_, scoreAfter_nonneg _ _ _, Or.inl rfl⟩
      cases ha : anyActiveCell (sweptGrid s.grid r c tol) <;> simp [ha]
  · rw [processSelection_idle s tol hc] at hstep
    cases hstep
    exact h

theorem reachable_inv (tol : ℚ) (s : Game) (h : Reachable tol s) : Inv s := by
  induction h with
  | init s0 rand => exact inv_resetGame s0 rand
  | click s button action xpos ypos _ ih => exact inv_mouse_button_callback s _ _ _ _ ih
  | key s k action rand _ ih => exact inv_key_callback s _ _ _ ih
  | step s s' _ hstep ih => exact inv_processSelection s s' tol ih hstep

/-- From a reachable state the selection-processing step always returns: a pending
selection names a cell of the grid. -/
theorem reachable_processSelection_defined (tol : ℚ) (s : Game) (h : Reachable tol s) :
    ∃ s', processSelection s tol = some s' := by
  by_cases hc : s.iSelected ≥ 0 ∧ s.gameOver = false
  · rcases (reachable_inv tol s h).2.2 with hsel | ⟨r, c, hsel, _, hgo⟩
    · rw [hsel] at hc; exact absurd hc.1 (by decide)
    · exact ⟨_, (selection_step_eq s tol r c hsel hgo).2⟩
  · exact ⟨s, processSelection_idle s tol hc⟩

/-- Claim C3. In every state reached from `resetGame` by clicks, key presses and
selection-processing steps, `gameOver` holds exactly when `anyActiveCell` is false, that is,
exactly when no cell of the grid is live. -/
theorem reachable_gameOver_iff (tol : ℚ) (s : Game) (h : Reachable tol s) :
    (s.gameOver = true ↔ anyActiveCell s.grid = false) ∧
    (s.gameOver = true ↔ ∀ i j, (s.grid i j).eliminated = true) := by
  have hinv := (reachable_inv tol s h).1
  exact ⟨hinv, hinv.trans (anyActiveCell_eq_false_iff s.grid)⟩

/-- Claim C7. In every state reached from `resetGame` by clicks, key presses and
selection-processing steps, `score` is not negative. -/
theorem reachable_score_nonneg (tol : ℚ) (s : Game) (h : Reachable tol s) : 0 ≤ s.score :=
  (reachable_inv tol s h).2.1

/-! ## One accepted click followed by its processing -/

theorem sweptGrid_live_iff (g : Grid) (r : Fin ROWS) (c : Fin COLS) (tol : ℚ)
    (p : Fin ROWS × Fin COLS) :
    (sweptGrid g r c tol p.1 p.2).eliminated = false ↔
      ((g p.1 p.2).eliminated = false ∧ p ≠ (r, c) ∧
        normalizedDistLe (g p.1 p.2).color (g r c).color tol = false) := by
  have h := eliminated_after_iff g (g r c).color tol r c p.1 p.2
  have hnot : (sweptGrid g r c tol p.1 p.2).eliminated = false ↔
      ¬ (sweptGrid g r c tol p.1 p.2).eliminated = true := by simp
  rw [hnot]
  unfold sweptGrid
  rw [h]
  simp only [not_or, Bool.not_eq_true, Prod.mk.eta]

theorem sweptGrid_color (g : Grid) (r : Fin ROWS) (c : Fin COLS) (tol : ℚ)
    (i : Fin ROWS) (j : Fin COLS) : (sweptGrid g r c tol i j).color = (g i j).color := by
  unfold sweptGrid
  split_ifs <;> rfl

theorem fsqrt_three : fsqrt 3 = some dMax := by
  unfold fsqrt dMax
  rw [if_neg (by norm_num)]

theorem fsqrt_zero : fsqrt 0 = some 0 := by
  unfold fsqrt
  rw [if_neg (by norm_num), sqrtMag_zero]

theorem normalizedDist_white_black : normalizedDist ⟨1, 1, 1⟩ ⟨0, 0, 0⟩ = some 1 := by
  have hsub : toF32 ((1 : ℚ) - 0) = some 1 := by rw [sub_zero, toF32_one]
  have hmul : toF32 ((1 : ℚ) * 1) = some 1 := by rw [mul_one, toF32_one]
  have h11 : toF32 ((1 : ℚ) + 1) = some 2 := by
    rw [show (1 : ℚ) + 1 = 2 by norm_num, toF32_two]
  have h21 : toF32 ((2 : ℚ) + 1) = some 3 := by
    rw [show (2 : ℚ) + 1 = 3 by norm_num, toF32_three]
  have hdiv : toF32 (dMax / dMax) = some 1 := by rw [div_self dMax_pos.ne', toF32_one]
  exact normalizedDist_of_steps ⟨1, 1, 1⟩ ⟨0, 0, 0⟩ 1 1 1 1 1 1 2 3 dMax 1 hsub hsub hsub
    hmul hmul hmul h11 h21 fsqrt_three hdiv

theorem normalizedDist_white_white : normalizedDist ⟨1, 1, 1⟩ ⟨1, 1, 1⟩ = some 0 := by
  have hsub : toF32 ((1 : ℚ) - 1) = some 0 := by rw [sub_self, toF32_zero]
  have hmul : toF32 ((0 : ℚ) * 0) = some 0 := by rw [mul_zero, toF32_zero]
  have hadd : toF32 ((0 : ℚ) + 0) = some 0 := by rw [add_zero, toF32_zero]
  have hdiv : toF32 (0 / dMax) = some 0 := by rw [zero_div, toF32_zero]
  exact normalizedDist_of_steps ⟨1, 1, 1⟩ ⟨1, 1, 1⟩ 0 0 0 0 0 0 0 0 0 0 hsub hsub hsub
    hmul hmul hmul hadd hadd fsqrt_zero hdiv

theorem white_black_not_within :
    normalizedDistLe ⟨1, 1, 1⟩ ⟨0, 0, 0⟩ (1 / 10) = false := by
  rw [← Bool.not_eq_true, normalizedDistLe_eq_true_iff, normalizedDist_white_black]
  rintro ⟨nd, h, hle⟩
  cases h
  norm_num at hle

theorem white_white_within :
    normalizedDistLe ⟨1, 1, 1⟩ ⟨1, 1, 1⟩ (1 / 10) = true := by
  rw [normalizedDistLe_eq_true_iff, normalizedDist_white_white]
  exact ⟨0, rfl, by norm_num⟩

/-- First move of the scenario: the only black live cell is clicked among white ones. -/
theorem scenario_first_move (s : Game) (p0 p1 p2 : Fin ROWS × Fin COLS) (x0 y0 : ℚ)
    (hgo : s.gameOver = false)
    (hlive : ∀ p : Fin ROWS × Fin COLS,
      (s.grid p.1 p.2).eliminated = false ↔ (p = p0 ∨ p = p1 ∨ p = p2))
    (hne : p0 ≠ p1 ∧ p0 ≠ p2)
    (hc0 : (s.grid p0.1 p0.2).color = ⟨0, 0, 0⟩)
    (hc1 : (s.grid p1.1 p1.2).color = ⟨1, 1, 1⟩)
    (hc2 : (s.grid p2.1 p2.2).color = ⟨1, 1, 1⟩)
    (hclick : clickRow y0 = (p0.1 : Int) ∧ clickCol x0 = (p0.2 : Int)) :
    ∃ t1 s1,
      eliminarSimilares
        (mouse_button_callback s GLFW_MOUSE_BUTTON_LEFT GLFW_PRESS x0 y0) (1 / 10)
        = some (t1, 1) ∧
      processSelection
        (mouse_button_callback s GLFW_MOUSE_BUTTON_LEFT GLFW_PRESS x0 y0) (1 / 10)
        = some s1 ∧
      (∀ p : Fin ROWS × Fin COLS, (s1.grid p.1 p.2).eliminated = false ↔ (p = p1 ∨ p = p2)) ∧
      (∀ i j, (s1.grid i j).color = (s.grid i j).color) ∧
      s1.attempts = wrapInt (s.attempts + 1) ∧ s1.score = scoreAfter s.score s.attempts 1 ∧
      s1.gameOver = false := by
  have hl0 : (s.grid p0.1 p0.2).eliminated = false := (hlive p0).mpr (Or.inl rfl)
  have hcb := mouse_button_callback_select s x0 y0 p0.1 p0.2 hclick.1 hclick.2 hl0 hgo
  rw [hcb]
  obtain ⟨he, hp⟩ := selection_step_eq
    { s with iSelected := (p0.1 : Int) * (COLS : Int) + (p0.2 : Int) } (1 / 10) p0.1 p0.2 rfl hgo
  have hwithin : ∀ p : Fin ROWS × Fin COLS, (s.grid p.1 p.2).eliminated = false → p ≠ p0 →
      normalizedDistLe (s.grid p.1 p.2).color (s.grid p0.1 p0.2).color (1 / 10) = false := by
    intro p hpl hpne
    rcases (hlive p).mp hpl with h | h | h
    · exact absurd h hpne
    · rw [h, hc1, hc0]; exact white_black_not_within
    · rw [h, hc2, hc0]; exact white_black_not_within
  have hcount : matchCount s.grid p0.1 p0.2 (1 / 10) = 0 := by
    unfold matchCount
    rw [Finset.card_eq_zero, Finset.filter_eq_empty_iff]
    rintro p _ ⟨hpne, hpl, hw⟩
    rw [hwithin p hpl hpne] at hw
    cases hw
  simp only [hcount] at he hp
  have hlive1 : ∀ p : Fin ROWS × Fin COLS,
      (sweptGrid s.grid p0.1 p0.2 (1 / 10) p.1 p.2).eliminated = false ↔ (p = p1 ∨ p = p2) := by
    intro p
    rw [sweptGrid_live_iff]
    constructor
    · rintro ⟨hpl, hpne, _⟩
      exact ((hlive p).mp hpl).resolve_left hpne
    · intro h
      have hpl : (s.grid p.1 p.2).eliminated = false := (hlive p).mpr (Or.inr h)
      have hpne : p ≠ p0 := by
        rcases h with h | h
        · rw [h]; exact fun hh => hne.1 hh.symm
        · rw [h]; exact fun hh => hne.2 hh.symm
      exact ⟨hpl, hpne, hwithin p hpl hpne⟩
  have hany : anyActiveCell (sweptGrid s.grid p0.1 p0.2 (1 / 10)) = true :=
    (anyActiveCell_eq_true_iff _).mpr ⟨p1.1, p1.2, (hlive1 p1).mpr (Or.inl rfl)⟩
  refine ⟨_, _, he, hp, hlive1, fun i j => sweptGrid_color _ _ _ _ i j, rfl, ?_, ?_⟩
  · simp
  · show (!anyActiveCell (sweptGrid s.grid p0.1 p0.2 (1 / 10))) = false
    rw [hany]; rfl

/-- Second move of the scenario: one of the two remaining white cells is clicked. -/
theorem scenario_second_move (s : Game) (pa pb : Fin ROWS × Fin COLS) (x y : ℚ)
    (hgo : s.gameOver = false)
    (hlive : ∀ p : Fin ROWS × Fin COLS,
      (s.grid p.1 p.2).eliminated = false ↔ (p = pa ∨ p = pb))
    (hne : pa ≠ pb)
    (hca : (s.grid pa.1 pa.2).color = ⟨1, 1, 1⟩)
    (hcb : (s.grid pb.1 pb.2).color = ⟨1, 1, 1⟩)
    (hclick : clickRow y = (pa.1 : Int) ∧ clickCol x = (pa.2 : Int)) :
    ∃ t2 s2,
      eliminarSimilares
        (mouse_button_callback s GLFW_MOUSE_BUTTON_LEFT GLFW_PRESS x y) (1 / 10)
        = some (t2, 2) ∧
      processSelection
        (mouse_button_callback s GLFW_MOUSE_BUTTON_LEFT GLFW_PRESS x y) (1 / 10)
        = some s2 ∧
      (∀ i j, (s2.grid i j).eliminated = true) ∧
      s2.attempts = wrapInt (s.attempts + 1) ∧ s2.score = scoreAfter s.score s.attempts 2 ∧
      s2.gameOver = true := by
  have hla : (s.grid pa.1 pa.2).eliminated = false := (hlive pa).mpr (Or.inl rfl)
  have hcbk := mouse_button_callback_select s x y pa.1 pa.2 hclick.1 hclick.2 hla hgo
  rw [hcbk]
  obtain ⟨he, hp⟩ := selection_step_eq
    { s with iSelected := (pa.1 : Int) * (COLS : Int) + (pa.2 : Int) } (1 / 10) pa.1 pa.2 rfl hgo
  have hwithin : ∀ p : Fin ROWS × Fin COLS, (s.grid p.1 p.2).eliminated = false →
      normalizedDistLe (s.grid p.1 p.2).color (s.grid pa.1 pa.2).color (1 / 10) = true := by
    intro p hpl
    rcases (hlive p).mp hpl with h | h
    · rw [h, hca]; exact white_white_within
    · rw [h, hcb, hca]; exact white_white_within
  have hcount : matchCount s.grid pa.1 pa.2 (1 / 10) = 1 := by
    unfold matchCount
    rw [Finset.card_eq_one]
    refine ⟨pb, ?_⟩
    ext p
    simp only [Finset.mem_filter, Finset.mem_univ, true_and, Finset.mem_singleton, Prod.mk.eta]
    constructor
    · rintro ⟨hpne, hpl, _⟩
      exact ((hlive p).mp hpl).resolve_left hpne
    · intro h
      have hpl : (s.grid p.1 p.2).eliminated = false := (hlive p).mpr (Or.inr h)
      exact ⟨by rw [h]; exact fun hh => hne hh.symm, hpl, hwithin p hpl⟩
  simp only [hcount] at he hp
  have hall : ∀ i j, (sweptGrid s.grid pa.1 pa.2 (1 / 10) i j).eliminated = true := by
    intro i j
    by_contra hcon
    have hl : (sweptGrid s.grid pa.1 pa.2 (1 / 10) (i, j).1 (i, j).2).eliminated = false := by
      simpa using hcon
    rw [sweptGrid_live_iff] at hl
    rw [hwithin (i, j) hl.1] at hl
    exact absurd hl.2.2 (by decide)
  have hany : anyActiveCell (sweptGrid s.grid pa.1 pa.2 (1 / 10)) = false :=
    (anyActiveCell_eq_false_iff _).mpr hall
  refine ⟨_, _, he, hp, hall, rfl, ?_, ?_⟩
  · norm_num
  · show (!anyActiveCell (sweptGrid s.grid pa.1 pa.2 (1 / 10))) = true
    rw [hany]; rfl

/-! ## The three-cell scenario -/

/-- Claim C9. From a session with `attempts = 0`, `score = 0`, `gameOver = false` in which
exactly three cells `p0`, `p1`, `p2` are live, with colours `(0,0,0)`, `(1,1,1)`, `(1,1,1)`,
and with tolerance `1/10`: a click on `p0` followed by the selection-processing step
eliminates only `p0`, with returned count 1, `attempts = 1`, `score = 0`,
`gameOver = false`; a following click on `q`, either of `p1` and `p2`, and its processing
eliminate both, with returned count 2, `attempts = 2`, `score = 0`, `gameOver = true`. -/
theorem scenario_three_cells (s : Game) (p0 p1 p2 q : Fin ROWS × Fin COLS)
    (x0 y0 x1 y1 : ℚ)
    (hfresh : s.attempts = 0 ∧ s.score = 0 ∧ s.gameOver = false ∧ s.iSelected = -1)
    (hlive : ∀ p : Fin ROWS × Fin COLS,
      (s.grid p.1 p.2).eliminated = false ↔ (p = p0 ∨ p = p1 ∨ p = p2))
    (hne : p0 ≠ p1 ∧ p0 ≠ p2 ∧ p1 ≠ p2)
    (hc0 : (s.grid p0.1 p0.2).color = ⟨0, 0, 0⟩)
    (hc1 : (s.grid p1.1 p1.2).color = ⟨1, 1, 1⟩)
    (hc2 : (s.grid p2.1 p2.2).color = ⟨1, 1, 1⟩)
    (hclick0 : clickRow y0 = (p0.1 : Int) ∧ clickCol x0 = (p0.2 : Int))
    (hq : q = p1 ∨ q = p2)
    (hclick1 : clickRow y1 = (q.1 : Int) ∧ clickCol x1 = (q.2 : Int)) :
    ∃ t1 s1 t2 s2,
      eliminarSimilares
        (mouse_button_callback s GLFW_MOUSE_BUTTON_LEFT GLFW_PRESS x0 y0) (1 / 10)
        = some (t1, 1) ∧
      processSelection
        (mouse_button_callback s GLFW_MOUSE_BUTTON_LEFT GLFW_PRESS x0 y0) (1 / 10)
        = some s1 ∧
      (∀ p : Fin ROWS × Fin COLS, (s1.grid p.1 p.2).eliminated = false ↔ (p = p1 ∨ p = p2)) ∧
      s1.attempts = 1 ∧ s1.score = 0 ∧ s1.gameOver = false ∧
      eliminarSimilares
        (mouse_button_callback s1 GLFW_MOUSE_BUTTON_LEFT GLFW_PRESS x1 y1) (1 / 10)
        = some (t2, 2) ∧
      processSelection
        (mouse_button_callback s1 GLFW_MOUSE_BUTTON_LEFT GLFW_PRESS x1 y1) (1 / 10)
        = some s2 ∧
      (∀ i j, (s2.grid i j).eliminated = true) ∧
      s2.attempts = 2 ∧ s2.score = 0 ∧ s2.gameOver = true := by
  obtain ⟨hatt, hscore, hgo, _⟩ := hfresh
  obtain ⟨t1, s1, he1, hp1, hlive1, hcol1, hatt1, hscore1, hgo1⟩ :=
    scenario_first_move s p0 p1 p2 x0 y0 hgo hlive ⟨hne.1, hne.2.1⟩ hc0 hc1 hc2 hclick0
  have hc1' : (s1.grid p1.1 p1.2).color = ⟨1, 1, 1⟩ := by rw [hcol1, hc1]
  have hc2' : (s1.grid p2.1 p2.2).color = ⟨1, 1, 1⟩ := by rw [hcol1, hc2]
  rw [hatt] at hatt1
  rw [hatt, hscore] at hscore1
  have hsecond : ∃ t2 s2,
      eliminarSimilares
        (mouse_button_callback s1 GLFW_MOUSE_BUTTON_LEFT GLFW_PRESS x1 y1) (1 / 10)
        = some (t2, 2) ∧
      processSelection
        (mouse_button_callback s1 GLFW_MOUSE_BUTTON_LEFT GLFW_PRESS x1 y1) (1 / 10)
        = some s2 ∧
      (∀ i j, (s2.grid i j).eliminated = true) ∧
      s2.attempts = wrapInt (s1.attempts + 1) ∧ s2.score = scoreAfter s1.score s1.attempts 2 ∧
      s2.gameOver = true := by
    rcases hq with h | h
    · subst h
      exact scenario_second_move s1 q p2 x1 y1 hgo1 hlive1 hne.2.2 hc1' hc2' hclick1
    · subst h
      exact scenario_second_move s1 q p1 x1 y1 hgo1
        (fun p => (hlive1 p).trans Or.comm) (fun hh => hne.2.2 hh.symm) hc2' hc1' hclick1
  obtain ⟨t2, s2, he2, hp2, hall2, hatt2, hscore2, hgo2⟩ := hsecond
  refine ⟨t1, s1, t2, s2, he1, hp1, hlive1, ?_, ?_, hgo1, he2, hp2, hall2, ?_, ?_, hgo2⟩
  · rw [hatt1]; decide
  · rw [hscore1]; decide
  · rw [hatt2, hatt1]; decide
  · rw [hscore2, hscore1, hatt1]; decide

theorem scenarioGrid_live_iff (p : Fin ROWS × Fin COLS) :
    (scenarioGrid p.1 p.2).eliminated = false ↔ (p = (0, 0) ∨ p = (0, 1) ∨ p = (0, 2)) := by
  revert p; decide

theorem scenario_three_cells_witness :
    ((scenario (-1)).attempts = 0 ∧ (scenario (-1)).score = 0 ∧
      (scenario (-1)).gameOver = false ∧ (scenario (-1)).iSelected = -1) ∧
    (clickRow 60 = (((0, 0) : Fin ROWS × Fin COLS).1 : Int) ∧
      clickCol 60 = (((0, 0) : Fin ROWS × Fin COLS).2 : Int)) ∧
    (clickRow 60 = (((0, 2) : Fin ROWS × Fin COLS).1 : Int) ∧
      clickCol 260 = (((0, 2) : Fin ROWS × Fin COLS).2 : Int)) ∧
    ∃ t1 s1 t2 s2,
      eliminarSimilares
        (mouse_button_callback (scenario (-1)) GLFW_MOUSE_BUTTON_LEFT GLFW_PRESS 60 60) (1 / 10)
        = some (t1, 1) ∧
      processSelection
        (mouse_button_callback (scenario (-1)) GLFW_MOUSE_BUTTON_LEFT GLFW_PRESS 60 60) (1 / 10)
        = some s1 ∧
      (∀ p : Fin ROWS × Fin COLS,
        (s1.grid p.1 p.2).eliminated = false ↔ (p = (0, 1) ∨ p = (0, 2))) ∧
      s1.attempts = 1 ∧ s1.score = 0 ∧ s1.gameOver = false ∧
      eliminarSimilares
        (mouse_button_callback s1 GLFW_MOUSE_BUTTON_LEFT GLFW_PRESS 260 60) (1 / 10)
        = some (t2, 2) ∧
      processSelection
        (mouse_button_callback s1 GLFW_MOUSE_BUTTON_LEFT GLFW_PRESS 260 60) (1 / 10)
        = some s2 ∧
      (∀ i j, (s2.grid i j).eliminated = true) ∧
      s2.attempts = 2 ∧ s2.score = 0 ∧ s2.gameOver = true :=
  have h0 : clickRow 60 = (((0, 0) : Fin ROWS × Fin COLS).1 : Int) ∧
      clickCol 60 = (((0, 0) : Fin ROWS × Fin COLS).2 : Int) := by
    constructor <;> norm_num [clickRow, clickCol, truncToInt]
  have h1 : clickRow 60 = (((0, 2) : Fin ROWS × Fin COLS).1 : Int) ∧
      clickCol 260 = (((0, 2) : Fin ROWS × Fin COLS).2 : Int) := by
    constructor <;> norm_num [clickRow, clickCol, truncToInt]
  ⟨⟨rfl, rfl, rfl, rfl⟩, h0, h1,
    scenario_three_cells (scenario (-1)) (0, 0) (0, 1) (0, 2) (0, 2) 60 60 260 60
      ⟨rfl, rfl, rfl, rfl⟩ scenarioGrid_live_iff (by decide)
      (by simp [scenario, scenarioGrid]) (by simp [scenario, scenarioGrid])
      (by simp [scenario, scenarioGrid]) h0 (Or.inr rfl) h1⟩

/-! ## Bounds on the counters

`attempts` and `score` never exceed the number of cells in a reachable state, so the 32-bit
`int` operations of the main loop never wrap around there. -/

theorem liveCount_sweptGrid (g : Grid) (r : Fin ROWS) (c : Fin COLS) (tol : ℚ)
    (hlive : (g r c).eliminated = false) :
    liveCount (sweptGrid g r c tol) + (1 + matchCount g r c tol) = liveCount g := by
  have hsplit : (Finset.univ.filter fun p : Fin ROWS × Fin COLS =>
      (g p.1 p.2).eliminated = false) =
      (Finset.univ.filter fun p : Fin ROWS × Fin COLS =>
        (sweptGrid g r c tol p.1 p.2).eliminated = false) ∪
      insert (r, c) (Finset.univ.filter fun p : Fin ROWS × Fin COLS =>
        p ≠ (r, c) ∧ (g p.1 p.2).eliminated = false ∧
          normalizedDistLe (g p.1 p.2).color (g r c).color tol = true) := by
    ext p
    simp only [Finset.mem_filter, Finset.mem_univ, true_and, Finset.mem_union,
      Finset.mem_insert, sweptGrid_live_iff]
    by_cases hp : p = (r, c)
    · subst hp; simp [hlive]
    · cases hw : normalizedDistLe (g p.1 p.2).color (g r c).color tol <;> simp [hp]
  have hdisj : Disjoint
      (Finset.univ.filter fun p : Fin ROWS × Fin COLS =>
        (sweptGrid g r c tol p.1 p.2).eliminated = false)
      (insert (r, c) (Finset.univ.filter fun p : Fin ROWS × Fin COLS =>
        p ≠ (r, c) ∧ (g p.1 p.2).eliminated = false ∧
          normalizedDistLe (g p.1 p.2).color (g r c).color tol = true)) := by
    rw [Finset.disjoint_left]
    intro p hp1 hp2
    simp only [Finset.mem_filter, Finset.mem_univ, true_and, sweptGrid_live_iff] at hp1
    simp only [Finset.mem_insert, Finset.mem_filter, Finset.mem_univ, true_and] at hp2
    rcases hp2 with h | ⟨_, _, h⟩
    · exact hp1.2.1 h
    · rw [h] at hp1; exact absurd hp1.2.2 (by decide)
  unfold liveCount matchCount
  rw [hsplit, Finset.card_union_of_disjoint hdisj, Finset.card_insert_of_not_mem (by simp)]
  omega

theorem liveCount_le (g : Grid) : liveCount g ≤ 48 := by
  unfold liveCount
  exact (Finset.card_filter_le _ _).trans (le_of_eq rfl)

theorem mouse_button_callback_fields (s : Game) (button action : Int) (xpos ypos : ℚ) :
    (mouse_button_callback s button action xpos ypos).grid = s.grid ∧
    (mouse_button_callback s button action xpos ypos).attempts = s.attempts ∧
    (mouse_button_callback s button action xpos ypos).score = s.score ∧
    (mouse_button_callback s button action xpos ypos).gameOver = s.gameOver := by
  unfold mouse_button_callback
  split_ifs
  · simp only []
    rcases selectCell_cases s (clickRow ypos) (clickCol xpos) with hs | ⟨r, c, _, _, _, hs⟩ <;>
      rw [hs] <;> exact ⟨rfl, rfl, rfl, rfl⟩
  · exact ⟨rfl, rfl, rfl, rfl⟩

theorem bounds_resetGame (s : Game) (rand : Nat → Nat) :
    0 ≤ (resetGame s rand).attempts ∧
    (resetGame s rand).attempts + (liveCount (resetGame s rand).grid : Int) ≤ 48 ∧
    (resetGame s rand).score + (liveCount (resetGame s rand).grid : Int) ≤ 48 := by
  have hcount : liveCount (resetGame s rand).grid = 48 :=
    liveCount_of_all_live _ fun i j => (resetGame_fresh s rand i j).2.2.1
  have hatt : (resetGame s rand).attempts = 0 := rfl
  have hscore : (resetGame s rand).score = 0 := rfl
  rw [hcount, hatt, hscore]
  norm_num

/-- In every reachable state `attempts` lies in `[0, 48]` and `score` is at most 48; more
precisely each of them plus the number of live cells is at most 48. -/
theorem reachable_bounds (tol : ℚ) (s : Game) (h : Reachable tol s) :
    0 ≤ s.attempts ∧ s.attempts + (liveCount s.grid : Int) ≤ 48 ∧
      s.score + (liveCount s.grid : Int) ≤ 48 := by
  induction h with
  | init s0 rand => exact bounds_resetGame s0 rand
  | click s button action xpos ypos _ ih =>
    obtain ⟨h1, h2, h3, _⟩ := mouse_button_callback_fields s button action xpos ypos
    rw [h1, h2, h3]; exact ih
  | key s k action rand _ ih =>
    unfold key_callback
    split_ifs
    · exact ih
    · exact bounds_resetGame s rand
    · exact ih
  | step s s' hs hstep ih =>
    by_cases hc : s.iSelected ≥ 0 ∧ s.gameOver = false
    · rcases (reachable_inv tol s hs).2.2 with hsel | ⟨r, c, hsel, hl, hgo⟩
      · rw [hsel] at hc; exact absurd hc.1 (by decide)
      · rw [(selection_step_eq s tol r c hsel hgo).2] at hstep
        cases hstep
        have hcount := liveCount_sweptGrid s.grid r c tol hl
        have hle := liveCount_le (sweptGrid s.grid r c tol)
        have hsc := (reachable_inv tol s hs).2.1
        have hmc := matchCount_le s.grid r c tol
        simp only []
        rw [scoreAfter_of_inRange _ _ _ (by unfold InIntRange; omega)
          (by unfold InIntRange; omega) (by unfold InIntRange; omega),
          wrapInt_of_inRange (by unfold InIntRange; omega)]
        rcases le_total (s.score + (1 + (matchCount s.grid r c tol : Int)) - (s.attempts + 1)) 0
          with hm | hm
        · rw [max_eq_left hm]; omega
        · rw [max_eq_right hm]; omega
    · rw [processSelection_idle s tol hc] at hstep
      cases hstep
      exact ih

/-- In every reachable state the three `int` computations of the selection-processing step
stay within the range of a 32-bit `int`, whichever cell is selected. -/
theorem reachable_inIntRange (tol : ℚ) (s : Game) (h : Reachable tol s)
    (r : Fin ROWS) (c : Fin COLS) :
    InIntRange (s.attempts + 1) ∧
    InIntRange (1 + (matchCount s.grid r c tol : Int) - (s.attempts + 1)) ∧
    InIntRange (s.score + (1 + (matchCount s.grid r c tol : Int) - (s.attempts + 1))) := by
  obtain ⟨h1, h2, h3⟩ := reachable_bounds tol s h
  have hsc := (reachable_inv tol s h).2.1
  have hmc := matchCount_le s.grid r c tol
  have hlc := liveCount_le s.grid
  unfold InIntRange
  omega

/-! ## Rounding at the boundary colour -/

theorem f32_3_255 : f32 (3 / 255) = 12632257 / 1073741824 := by
  rw [f32_eq (-7) 12632257 (by norm_num) (by norm_num) (by norm_num)
    (by rw [abs_lt]; constructor <;> norm_num)]
  norm_num

theorem f32_15_255 : f32 (15 / 255) = 15790321 / 268435456 := by
  rw [f32_eq (-5) 15790321 (by norm_num) (by norm_num) (by norm_num)
    (by rw [abs_lt]; constructor <;> norm_num)]
  norm_num

theorem f32_87_255 : f32 (87 / 255) = 11447983 / 33554432 := by
  rw [f32_eq (-2) 11447983 (by norm_num) (by norm_num) (by norm_num)
    (by rw [abs_lt]; constructor <;> norm_num)]
  norm_num

theorem f32_21_255 : f32 (21 / 255) = 11053225 / 134217728 := by
  rw [f32_eq (-4) 11053225 (by norm_num) (by norm_num) (by norm_num)
    (by rw [abs_lt]; constructor <;> norm_num)]
  norm_num

/-- The normalised distance, as the code computes it, between the colour
`float(3) / 255.0f`, `float(15) / 255.0f`, `float(87) / 255.0f` and black: the value of
`0.2f`. -/
theorem normalizedDist_boundary :
    normalizedDist ⟨f32 (3 / 255), f32 (15 / 255), f32 (87 / 255)⟩ ⟨0, 0, 0⟩ =
      some (13421773 / 67108864) := by
  have h1 : toF32 (f32 (3 / 255) - 0) = some (12632257 / 1073741824) := by
    rw [sub_zero, f32_3_255]
    exact toF32_eq (-7) 12632257 _ (by norm_num) (by norm_num) (by norm_num)
      (by rw [abs_lt]; constructor <;> norm_num)
      (by norm_num) (by rw [abs_lt]; constructor <;> norm_num)
  have h2 : toF32 (f32 (15 / 255) - 0) = some (15790321 / 268435456) := by
    rw [sub_zero, f32_15_255]
    exact toF32_eq (-5) 15790321 _ (by norm_num) (by norm_num) (by norm_num)
      (by rw [abs_lt]; constructor <;> norm_num)
      (by norm_num) (by rw [abs_lt]; constructor <;> norm_num)
  have h3 : toF32 (f32 (87 / 255) - 0) = some (11447983 / 33554432) := by
    rw [sub_zero, f32_87_255]
    exact toF32_eq (-2) 11447983 _ (by norm_num) (by norm_num) (by norm_num)
      (by rw [abs_lt]; constructor <;> norm_num)
      (by norm_num) (by rw [abs_lt]; constructor <;> norm_num)
  have h4 : toF32 ((12632257 / 1073741824 : ℚ) * (12632257 / 1073741824)) = some (9511347 / 68719476736) :=
    toF32_eq (-13) 9511347 _ (by norm_num) (by norm_num) (by norm_num)
      (by rw [abs_lt]; constructor <;> norm_num)
      (by norm_num) (by rw [abs_lt]; constructor <;> norm_num)
  have h5 : toF32 ((15790321 / 268435456 : ℚ) * (15790321 / 268435456)) = some (14861479 / 4294967296) :=
    toF32_eq (-9) 14861479 _ (by norm_num) (by norm_num) (by norm_num)
      (by rw [abs_lt]; constructor <;> norm_num)
      (by norm_num) (by rw [abs_lt]; constructor <;> norm_num)
  have h6 : toF32 ((11447983 / 33554432 : ℚ) * (11447983 / 33554432)) = some (7811565 / 67108864) :=
    toF32_eq (-4) 15623130 _ (by norm_num) (by norm_num) (by norm_num)
      (by rw [abs_lt]; constructor <;> norm_num)
      (by norm_num) (by rw [abs_lt]; constructor <;> norm_num)
  have h7 : toF32 ((9511347 / 68719476736 : ℚ) + 14861479 / 4294967296) = some (7727969 / 2147483648) :=
    toF32_eq (-9) 15455938 _ (by norm_num) (by norm_num) (by norm_num)
      (by rw [abs_lt]; constructor <;> norm_num)
      (by norm_num) (by rw [abs_lt]; constructor <;> norm_num)
  have h8 : toF32 ((7727969 / 2147483648 : ℚ) + 7811565 / 67108864) = some (1006633 / 8388608) :=
    toF32_eq (-4) 16106128 _ (by norm_num) (by norm_num) (by norm_num)
      (by rw [abs_lt]; constructor <;> norm_num)
      (by norm_num) (by rw [abs_lt]; constructor <;> norm_num)
  have h9 : fsqrt (1006633 / 8388608) = some (2905899 / 8388608) := by
    unfold fsqrt
    rw [if_neg (by norm_num), sqrtMag_eq (-2) 11623596 (by norm_num) (by norm_num) (by norm_num)
      (by norm_num) (by norm_num) (by norm_num)]
    norm_num
  have h10 : toF32 ((2905899 / 8388608 : ℚ) / dMax) = some (13421773 / 67108864) := by
    rw [dMax_eq]
    exact toF32_eq (-3) 13421773 _ (by norm_num) (by norm_num) (by norm_num)
      (by rw [abs_lt]; constructor <;> norm_num)
      (by norm_num) (by rw [abs_lt]; constructor <;> norm_num)
  exact normalizedDist_of_steps _ _ _ _ _ _ _ _ _ _ _ _ h1 h2 h3 h4 h5 h6 h7 h8 h9 h10

theorem boundary_within_as_computed :
    normalizedDistLe ⟨f32 (3 / 255), f32 (15 / 255), f32 (87 / 255)⟩ ⟨0, 0, 0⟩
      COLOR_TOLERANCE = true := by
  rw [normalizedDistLe_eq_true_iff, normalizedDist_boundary, COLOR_TOLERANCE_eq]
  exact ⟨_, rfl, le_refl _⟩

theorem boundary_not_within_real :
    ¬ withinToleranceReal ⟨f32 (3 / 255), f32 (15 / 255), f32 (87 / 255)⟩ ⟨0, 0, 0⟩
      COLOR_TOLERANCE := by
  rw [withinToleranceReal_iff, COLOR_TOLERANCE_eq]
  unfold distSq
  simp only [Vec3.r, Vec3.g, Vec3.b, sub_zero]
  rw [f32_3_255, f32_15_255, f32_87_255]
  norm_num

/-! ## The theorems at concrete inputs -/

theorem eliminarSimilares_eliminated_iff_witness :
    (scenario 0).iSelected = ((0 : Fin ROWS) : Int) * (COLS : Int) + ((0 : Fin COLS) : Int) ∧
    ((scenario 0).grid 0 0).eliminated = false ∧
    ∃ s' n, eliminarSimilares (scenario 0) (1 / 10) = some (s', n) ∧
      ∀ i j, ((s'.grid i j).eliminated = true ↔
        (((scenario 0).grid i j).eliminated = true ∨ (i, j) = ((0 : Fin ROWS), (0 : Fin COLS)) ∨
          ∃ nd, normalizedDist ((scenario 0).grid i j).color ((scenario 0).grid 0 0).color
            = some nd ∧ nd ≤ 1 / 10)) :=
  ⟨by decide, by decide,
    eliminarSimilares_eliminated_iff (scenario 0) (1 / 10) 0 0 (by decide) (by decide)⟩

/-- Claim C1 as first stated fails. On a board that `resetGame` can produce, with the black
cell `(0, 0)` selected and the tolerance `0.2f`, `eliminarSimilares` eliminates the cell
`(0, 1)`, which was live, is not the selected cell, and whose exact distance to black divided
by the square root of three exceeds the tolerance. -/
theorem eliminarSimilares_real_distance_fails :
    boundaryGame.iSelected = ((0 : Fin ROWS) : Int) * (COLS : Int) + ((0 : Fin COLS) : Int) ∧
    (boundaryGame.grid 0 0).eliminated = false ∧
    ¬ ∃ s' n, eliminarSimilares boundaryGame COLOR_TOLERANCE = some (s', n) ∧
      ∀ i j, ((s'.grid i j).eliminated = true ↔
        ((boundaryGame.grid i j).eliminated = true ∨
          (i, j) = ((0 : Fin ROWS), (0 : Fin COLS)) ∨
          withinToleranceReal (boundaryGame.grid i j).color (boundaryGame.grid 0 0).color
            COLOR_TOLERANCE)) := by
  refine ⟨by decide, by decide, ?_⟩
  rintro ⟨s', n, he, hiff⟩
  rw [eliminarSimilares_eq boundaryGame COLOR_TOLERANCE 0 0 (by decide)] at he
  have hs' : s'.grid = sweptGrid boundaryGame.grid 0 0 COLOR_TOLERANCE := by
    cases he; rfl
  have hc01 : (boundaryGame.grid 0 1).color = ⟨f32 (3 / 255), f32 (15 / 255), f32 (87 / 255)⟩ :=
    by simp [boundaryGame, boundaryGrid]
  have hc00 : (boundaryGame.grid 0 0).color = ⟨0, 0, 0⟩ := by
    simp [boundaryGame, boundaryGrid]
  have hel : (s'.grid 0 1).eliminated = true := by
    rw [hs']
    refine (eliminated_after_iff boundaryGame.grid (boundaryGame.grid 0 0).color
      COLOR_TOLERANCE 0 0 0 1).mpr (Or.inr (Or.inr ?_))
    rw [hc01, hc00]
    exact boundary_within_as_computed
  rcases (hiff 0 1).mp hel with h | h | h
  · revert h; decide
  · revert h; decide
  · rw [hc01, hc00] at h
    exact boundary_not_within_real h

theorem eliminarSimilares_count_witness :
    (scenario 1).iSelected = ((0 : Fin ROWS) : Int) * (COLS : Int) + ((1 : Fin COLS) : Int) ∧
    ((scenario 1).grid 0 1).eliminated = false ∧
    ∃ s' n, eliminarSimilares (scenario 1) COLOR_TOLERANCE = some (s', n) ∧
      n = ((Finset.univ.filter fun p : Fin ROWS × Fin COLS =>
        ((scenario 1).grid p.1 p.2).eliminated = false ∧
          (s'.grid p.1 p.2).eliminated = true).card : Int) ∧
      1 ≤ n :=
  ⟨by decide, by decide,
    eliminarSimilares_count (scenario 1) COLOR_TOLERANCE 0 1 (by decide) (by decide)⟩

theorem scenarioGrid_unit_cube (i : Fin ROWS) (j : Fin COLS) :
    (0 ≤ (scenarioGrid i j).color.r ∧ (scenarioGrid i j).color.r ≤ 1) ∧
    (0 ≤ (scenarioGrid i j).color.g ∧ (scenarioGrid i j).color.g ≤ 1) ∧
    (0 ≤ (scenarioGrid i j).color.b ∧ (scenarioGrid i j).color.b ≤ 1) := by
  simp only [scenarioGrid]
  split_ifs <;> norm_num

theorem eliminarSimilares_tolerance_ge_one_witness :
    (scenario 2).iSelected = ((0 : Fin ROWS) : Int) * (COLS : Int) + ((2 : Fin COLS) : Int) ∧
    ((scenario 2).grid 0 2).eliminated = false ∧
    (∀ i j, (0 ≤ ((scenario 2).grid i j).color.r ∧ ((scenario 2).grid i j).color.r ≤ 1) ∧
      (0 ≤ ((scenario 2).grid i j).color.g ∧ ((scenario 2).grid i j).color.g ≤ 1) ∧
      (0 ≤ ((scenario 2).grid i j).color.b ∧ ((scenario 2).grid i j).color.b ≤ 1)) ∧
    (1 : ℚ) ≤ 1 ∧
    ∃ s' n, eliminarSimilares (scenario 2) 1 = some (s', n) ∧
      (∀ i j, (s'.grid i j).eliminated = true) ∧
      n = ((Finset.univ.filter fun p : Fin ROWS × Fin COLS =>
        ((scenario 2).grid p.1 p.2).eliminated = false).card : Int) :=
  ⟨by decide, by decide, scenarioGrid_unit_cube, le_refl 1,
    eliminarSimilares_tolerance_ge_one (scenario 2) 1 0 2 (by decide) (by decide)
      scenarioGrid_unit_cube (le_refl 1)⟩

theorem processSelection_attempts_score_witness :
    (scenario 0).iSelected = ((0 : Fin ROWS) : Int) * (COLS : Int) + ((0 : Fin COLS) : Int) ∧
    (scenario 0).gameOver = false ∧
    InIntRange ((scenario 0).attempts + 1) ∧
    InIntRange (1 + (matchCount (scenario 0).grid 0 0 COLOR_TOLERANCE : Int) -
      ((scenario 0).attempts + 1)) ∧
    InIntRange ((scenario 0).score +
      (1 + (matchCount (scenario 0).grid 0 0 COLOR_TOLERANCE : Int) -
        ((scenario 0).attempts + 1))) ∧
    ∃ s1 n s', eliminarSimilares (scenario 0) COLOR_TOLERANCE = some (s1, n) ∧
      processSelection (scenario 0) COLOR_TOLERANCE = some s' ∧
      s'.attempts = (scenario 0).attempts + 1 ∧
      s'.score = max 0 ((scenario 0).score + n - s'.attempts) :=
  have hm := matchCount_le scenarioGrid 0 0 COLOR_TOLERANCE
  have h1 : InIntRange ((scenario 0).attempts + 1) := ⟨by decide, by decide⟩
  have h2 : InIntRange (1 + (matchCount (scenario 0).grid 0 0 COLOR_TOLERANCE : Int) -
      ((scenario 0).attempts + 1)) := by
    show InIntRange (1 + (matchCount scenarioGrid 0 0 COLOR_TOLERANCE : Int) - (0 + 1))
    unfold InIntRange
    omega
  have h3 : InIntRange ((scenario 0).score +
      (1 + (matchCount (scenario 0).grid 0 0 COLOR_TOLERANCE : Int) -
        ((scenario 0).attempts + 1))) := by
    show InIntRange (0 + (1 + (matchCount scenarioGrid 0 0 COLOR_TOLERANCE : Int) - (0 + 1)))
    unfold InIntRange
    omega
  ⟨by decide, rfl, h1, h2, h3,
    processSelection_attempts_score (scenario 0) COLOR_TOLERANCE 0 0 (by decide) rfl h1 h2 h3⟩

/-- Claim C2 as first stated fails. With `attempts` at the largest `int`, a valid selection
and the game not over, the step leaves `attempts = -2147483648`, not `attempts + 1`. -/
theorem processSelection_attempts_overflow :
    overflowGame.iSelected = ((0 : Fin ROWS) : Int) * (COLS : Int) + ((0 : Fin COLS) : Int) ∧
    overflowGame.gameOver = false ∧
    (∃ s', processSelection overflowGame COLOR_TOLERANCE = some s' ∧
      s'.attempts = -2147483648) ∧
    ¬ ∃ s1 n s', eliminarSimilares overflowGame COLOR_TOLERANCE = some (s1, n) ∧
      processSelection overflowGame COLOR_TOLERANCE = some s' ∧
      s'.attempts = overflowGame.attempts + 1 ∧
      s'.score = max 0 (overflowGame.score + n - s'.attempts) := by
  have hp := (selection_step_eq overflowGame COLOR_TOLERANCE 0 0 (by decide) rfl).2
  have hw : wrapInt (overflowGame.attempts + 1) = -2147483648 := by decide
  refine ⟨by decide, rfl, ⟨_, hp, hw⟩, ?_⟩
  rintro ⟨s1, n, s', _, hp', hatt, _⟩
  rw [hp] at hp'
  cases hp'
  rw [show wrapInt (overflowGame.attempts + 1) = -2147483648 from hw] at hatt
  revert hatt
  decide

/-- Claim C6 as first stated fails. When every call of `rand()` returns 21, the red channel
of the cell `(0, 0)` after `resetGame` is `11053225 / 2 ^ 27`, the binary32 value nearest to
`21 / 255`, and it is not `k / 255` for any natural `k`. -/
theorem resetGame_channel_not_ratio :
    ((resetGame (scenario (-1)) fun _ => 21).grid 0 0).color.r = 11053225 / 134217728 ∧
    ¬ ∀ i j, ∃ kr kg kb : Nat, kr ≤ 255 ∧ kg ≤ 255 ∧ kb ≤ 255 ∧
      ((resetGame (scenario (-1)) fun _ => 21).grid i j).color.r = (kr : ℚ) / 255 ∧
      ((resetGame (scenario (-1)) fun _ => 21).grid i j).color.g = (kg : ℚ) / 255 ∧
      ((resetGame (scenario (-1)) fun _ => 21).grid i j).color.b = (kb : ℚ) / 255 := by
  obtain ⟨_, _, _, n, hc⟩ := resetGame_fresh (scenario (-1)) (fun _ => 21) 0 0
  have hr : ((resetGame (scenario (-1)) fun _ => 21).grid 0 0).color.r =
      11053225 / 134217728 := by
    rw [hc]
    show f32 (((21 % 256 : Nat) : ℚ) / 255) = 11053225 / 134217728
    rw [show (((21 % 256 : Nat) : ℚ) / 255) = 21 / 255 by norm_num, f32_21_255]
  refine ⟨hr, fun hall => ?_⟩
  obtain ⟨kr, _, _, _, _, _, hk, _, _⟩ := hall 0 0
  rw [hr] at hk
  have h2 : (11053225 * 255 : ℚ) = (kr : ℚ) * 134217728 := by
    field_simp at hk
    linarith
  have h3 : 11053225 * 255 = kr * 134217728 := by exact_mod_cast h2
  omega

theorem reachable_gameOver_iff_witness :
    Reachable COLOR_TOLERANCE (resetGame (scenario (-1)) fun n => 7 * n) ∧
    (((resetGame (scenario (-1)) fun n => 7 * n).gameOver = true ↔
        anyActiveCell (resetGame (scenario (-1)) fun n => 7 * n).grid = false) ∧
      ((resetGame (scenario (-1)) fun n => 7 * n).gameOver = true ↔
        ∀ i j, ((resetGame (scenario (-1)) fun n => 7 * n).grid i j).eliminated = true)) :=
  ⟨Reachable.init _ _, reachable_gameOver_iff COLOR_TOLERANCE _ (Reachable.init _ _)⟩

theorem mouse_button_callback_rejects_witness :
    (clickRow 60 < 0 ∨ (ROWS : Int) ≤ clickRow 60 ∨
      clickCol 1000 < 0 ∨ (COLS : Int) ≤ clickCol 1000 ∨
      (∃ (r : Fin ROWS) (c : Fin COLS), (r : Int) = clickRow 60 ∧ (c : Int) = clickCol 1000 ∧
        ((scenario (-1)).grid r c).eliminated = true) ∨
      (scenario (-1)).gameOver = true) ∧
    mouse_button_callback (scenario (-1)) GLFW_MOUSE_BUTTON_LEFT GLFW_PRESS 1000 60 =
      scenario (-1) :=
  have h : (COLS : Int) ≤ clickCol 1000 := by norm_num [clickCol, truncToInt]
  ⟨Or.inr (Or.inr (Or.inr (Or.inl h))),
    mouse_button_callback_rejects (scenario (-1)) 1000 60 (Or.inr (Or.inr (Or.inr (Or.inl h))))⟩

theorem reachable_score_nonneg_witness :
    Reachable COLOR_TOLERANCE
      (mouse_button_callback (resetGame (scenario (-1)) fun _ => 0)
        GLFW_MOUSE_BUTTON_LEFT GLFW_PRESS 60 60) ∧
    0 ≤ (mouse_button_callback (resetGame (scenario (-1)) fun _ => 0)
        GLFW_MOUSE_BUTTON_LEFT GLFW_PRESS 60 60).score :=
  ⟨Reachable.click _ _ _ _ _ (Reachable.init _ _),
    reachable_score_nonneg COLOR_TOLERANCE _ (Reachable.click _ _ _ _ _ (Reachable.init _ _))⟩

end JogoDasCores
